import Mathlib

/-!
Verification of the objmixer triangle-mesh pipeline (objmixer.py): the in-memory
mesh model, the byte-level OBJ parser, the identity-based vertex deduplication,
the rotation/alignment transforms, and the OBJ serializer, embedded shallowly.
Python floats are modelled as rationals (exact field arithmetic); Python object
identity is modelled by the allocation index of every `VertexObject` in a store
that plays the role of the Python heap; in-place mutation becomes functional
update of that store.
-/

namespace ObjMixer

/-- Mirror of `VertexObject` in objmixer.py: position/normal/texcoord tuples
(modelled as lists, since Python assigns tuples of whatever arity was parsed)
and the mutable output `index` (0 until a dedup pass assigns it). -/
structure VertexObject where
  position : List ℚ
  normal : List ℚ
  texcoord : List ℚ
  index : ℕ
deriving DecidableEq

/-- The Python constructor defaults: position (0,0,0), normal (0,0,0),
texcoord (0,0), index 0. -/
instance : Inhabited VertexObject :=
  ⟨{ position := [0, 0, 0], normal := [0, 0, 0], texcoord := [0, 0], index := 0 }⟩

/-- A parsed face: the tuple of vertex references built on line 63 of
objmixer.py. A slot is `some i` for a reference to the vertex with allocation
id `i`, and `none` for Python's `None` (an index missing from the vertex map).
The tuple arity is whatever number of index tokens the face line carried. -/
abbrev Triangle := List (Option ℕ)

/-- Mirror of `MeshObject`: the list of triangles plus the store of every
`VertexObject` ever allocated while parsing, indexed by allocation id
(creation order).  Two structurally equal vertices at different ids model two
distinct Python objects. -/
structure MeshObject where
  store : List VertexObject
  triangles : List Triangle
deriving DecidableEq

/-- Heap read: the vertex object at allocation id `i` (the default is never
reached on ids that actually occur in a parsed mesh). -/
def getV (st : List VertexObject) (i : ℕ) : VertexObject := st.getD i default

/-- The dedup loop of `MeshObject.__get_unique_vertices` (lines 78-88):
walk the triangle slots in order (outer loop over triangles, inner over
slots), collect each vertex id on first encounter.  A `None` slot makes
Python raise `AttributeError` at `vertex.index = len(vertex_array)`
(`None` has no attributes), modelled as `none`. -/
def firstDedup (acc : List ℕ) : List (Option ℕ) → Option (List ℕ)
  | [] => some acc
  | none :: _ => none
  | some i :: rest => firstDedup (if i ∈ acc then acc else acc ++ [i]) rest

/-- Fuel-indexed workhorse of `fdRec` (the fuel only makes the recursion
structural; `w.length` fuel always suffices). -/
def fdRecF : ℕ → List ℕ → List ℕ
  | 0, _ => []
  | _ + 1, [] => []
  | fuel + 1, i :: w => i :: fdRecF fuel (w.filter fun a => decide (a ≠ i))

/-- Modelled from the spec: the "first-encounter order" of §4.2 — keep each
id where it first occurs, deleting its later duplicates. Used to state that
the source dedup realises exactly this order. -/
def fdRec (w : List ℕ) : List ℕ := fdRecF w.length w

/-- The pure accumulator underlying `firstDedup` once every slot is known
to be resolved. -/
def fdFold (acc : List ℕ) : List ℕ → List ℕ
  | [] => acc
  | i :: rest => fdFold (if i ∈ acc then acc else acc ++ [i]) rest

/-- The resolved vertex ids referenced by the triangles, in slot order. -/
def slotIds (m : MeshObject) : List ℕ := m.triangles.flatten.filterMap id

/-- The index side effect of `__get_unique_vertices`: the `k`-th collected
vertex gets `index = k + 1` (`vertex.index = len(vertex_array)` at append
time). -/
def assignIndices (st : List VertexObject) (k : ℕ) : List ℕ → List VertexObject
  | [] => st
  | i :: rest => assignIndices (st.set i { getV st i with index := k + 1 }) (k + 1) rest

/-- `MeshObject.__get_unique_vertices`: the collected id list in first
encounter order, together with the store after the index reassignment.
`none` when a triangle holds an absent (`None`) reference. -/
def getUniqueVertices (m : MeshObject) : Option (MeshObject × List ℕ) :=
  match firstDedup [] m.triangles.flatten with
  | none => none
  | some ids => some ({ m with store := assignIndices m.store 0 ids }, ids)

/-- The positions of the deduplicated vertices, in dedup order. -/
def dedupPositions (m : MeshObject) : Option (List (List ℚ)) :=
  match getUniqueVertices m with
  | none => none
  | some (m1, ids) => some (ids.map fun i => (getV m1.store i).position)

/-- `MeshObject.__vector_dot`. -/
def vdot (r c : ℚ × ℚ × ℚ) : ℚ := r.1 * c.1 + r.2.1 * c.2.1 + r.2.2 * c.2.2

/-- A 3x3 matrix as its three rows, mirroring the 9-tuples of objmixer.py. -/
structure Mat3 where
  r0 : ℚ × ℚ × ℚ
  r1 : ℚ × ℚ × ℚ
  r2 : ℚ × ℚ × ℚ

/-- Reading `p[0], p[1], p[2]` from a Python tuple: `none` models the
`IndexError` raised when the tuple is shorter than 3. -/
def get3 (p : List ℚ) : Option (ℚ × ℚ × ℚ) :=
  match p[0]?, p[1]?, p[2]? with
  | some a, some b, some c => some (a, b, c)
  | _, _, _ => none

/-- The per-vertex loop of `MeshObject.__rotate_with_matrix`: replace
position and normal by the matrix-vector products, in dedup order. -/
def rotateApply (mat : Mat3) (st : List VertexObject) : List ℕ → Option (List VertexObject)
  | [] => some st
  | i :: rest =>
    match get3 (getV st i).position, get3 (getV st i).normal with
    | some p, some n =>
      rotateApply mat (st.set i { getV st i with
        position := [vdot mat.r0 p, vdot mat.r1 p, vdot mat.r2 p],
        normal := [vdot mat.r0 n, vdot mat.r1 n, vdot mat.r2 n] }) rest
    | _, _ => none

/-- `MeshObject.__rotate_with_matrix` (lines 123-137). -/
def rotateWithMatrix (mat : Mat3) (m : MeshObject) : Option MeshObject :=
  match getUniqueVertices m with
  | none => none
  | some (m1, ids) =>
    match rotateApply mat m1.store ids with
    | none => none
    | some st => some { m1 with store := st }

/-- `MeshObject.__rotate_x` (lines 90-98). `trig` abstracts the composite
`fun a => (cos (pi / 180 * a), sin (pi / 180 * a))` applied by the Python
code to the angle in degrees; the zero-angle test happens on the raw degree
value, before any trigonometry, exactly as in the source. -/
def rotateX (trig : ℚ → ℚ × ℚ) (angle : ℚ) (m : MeshObject) : Option MeshObject :=
  if angle = 0 then some m
  else rotateWithMatrix
    { r0 := (1, 0, 0),
      r1 := (0, (trig angle).1, -(trig angle).2),
      r2 := (0, (trig angle).2, (trig angle).1) } m

/-- `MeshObject.__rotate_y` (lines 100-108). -/
def rotateY (trig : ℚ → ℚ × ℚ) (angle : ℚ) (m : MeshObject) : Option MeshObject :=
  if angle = 0 then some m
  else rotateWithMatrix
    { r0 := ((trig angle).1, 0, (trig angle).2),
      r1 := (0, 1, 0),
      r2 := (-(trig angle).2, 0, (trig angle).1) } m

/-- `MeshObject.__rotate_z` (lines 110-118). -/
def rotateZ (trig : ℚ → ℚ × ℚ) (angle : ℚ) (m : MeshObject) : Option MeshObject :=
  if angle = 0 then some m
  else rotateWithMatrix
    { r0 := ((trig angle).1, -(trig angle).2, 0),
      r1 := ((trig angle).2, (trig angle).1, 0),
      r2 := (0, 0, 1) } m

/-- `MeshObject.rotate` (lines 139-142): X, then Y, then Z. -/
def rotate (trig : ℚ → ℚ × ℚ) (angles : ℚ × ℚ × ℚ) (m : MeshObject) : Option MeshObject :=
  match rotateX trig angles.1 m with
  | none => none
  | some m1 =>
    match rotateY trig angles.2.1 m1 with
    | none => none
    | some m2 => rotateZ trig angles.2.2 m2

/-- Python's binary `min` on the rational model (the first argument on
ties, like the builtin). -/
def pymin (a b : ℚ) : ℚ := if a ≤ b then a else b

/-- Python's binary `max` on the rational model (the first argument on
ties, like the builtin). -/
def pymax (a b : ℚ) : ℚ := if b ≤ a then a else b

/-- The `[1000000, -1000000]` sentinel pair with which `MeshObject.align`
initialises each per-axis `[min, max]` accumulator (lines 145-147). -/
def spanInit : ℚ × ℚ := (1000000, -1000000)

/-- The extrema loop of `MeshObject.align` (lines 149-156): fold min/max of
the X, Y, Z coordinates over the deduplicated positions. -/
def spanFold : List (List ℚ) → (ℚ × ℚ) → (ℚ × ℚ) → (ℚ × ℚ) →
    Option ((ℚ × ℚ) × (ℚ × ℚ) × (ℚ × ℚ))
  | [], sx, sy, sz => some (sx, sy, sz)
  | p :: rest, sx, sy, sz =>
    match get3 p with
    | none => none
    | some (a, b, c) =>
      spanFold rest (pymin sx.1 a, pymax sx.2 a) (pymin sy.1 b, pymax sy.2 b)
        (pymin sz.1 c, pymax sz.2 c)

/-- The subtraction loop of `MeshObject.align` (lines 160-166): every
deduplicated vertex's position is rebuilt as the 3-tuple
`(p[0]-a0, p[1]-a1, p[2]-a2)`. -/
def alignApply (a : ℚ × ℚ × ℚ) (st : List VertexObject) : List ℕ → List VertexObject
  | [] => st
  | i :: rest =>
    alignApply a (st.set i { getV st i with
      position := [(getV st i).position.getD 0 0 - a.1,
        (getV st i).position.getD 1 0 - a.2.1,
        (getV st i).position.getD 2 0 - a.2.2] }) rest

/-- `MeshObject.align` (lines 144-166), returning the updated mesh together
with the anchor `((minX+minZ)/2, minY, (maxX+maxZ)/2)` that was subtracted
(the code prints it as a diagnostic). -/
def align (m : MeshObject) : Option (MeshObject × (ℚ × ℚ × ℚ)) :=
  match getUniqueVertices m with
  | none => none
  | some (m1, ids) =>
    match spanFold (ids.map fun i => (getV m1.store i).position) spanInit spanInit spanInit with
    | none => none
    | some (sx, sy, sz) =>
      some ({ m1 with store := alignApply ((sx.1 + sz.1) / 2, sy.1, (sx.2 + sz.2) / 2) m1.store ids },
        ((sx.1 + sz.1) / 2, sy.1, (sx.2 + sz.2) / 2))

/-- Decimal digit character (callers only pass values below 10). -/
def digitCh : ℕ → Char
  | 0 => '0'
  | 1 => '1'
  | 2 => '2'
  | 3 => '3'
  | 4 => '4'
  | 5 => '5'
  | 6 => '6'
  | 7 => '7'
  | 8 => '8'
  | 9 => '9'
  | _ => '*'

/-- Fuel-indexed workhorse of `natChars` (fuel `n + 1` always suffices). -/
def natCharsF : ℕ → ℕ → List Char
  | 0, _ => []
  | fuel + 1, n => if n < 10 then [digitCh n] else natCharsF fuel (n / 10) ++ [digitCh (n % 10)]

/-- Decimal rendering of a natural number, most significant digit first. -/
def natChars (n : ℕ) : List Char := natCharsF (n + 1) n

/-- Zero-pad a (at most 7-digit) natural to exactly 7 decimal digits. -/
def pad7 (n : ℕ) : List Char := List.replicate (7 - (natChars n).length) '0' ++ natChars n

/-- The integer `n` with `n / 10^7` closest to `q` (ties upward): the value
that `'{:.7f}'.format` prints for a nonnegative number. -/
def round7num (q : ℚ) : ℤ := ⌊q * 10000000 + 1 / 2⌋

/-- `'{:.7f}'` for a nonnegative rational: integer part, dot, 7 fraction
digits. -/
def format7abs (q : ℚ) : List Char :=
  natChars ((round7num q).toNat / 10000000) ++ '.' :: pad7 ((round7num q).toNat % 10000000)

/-- The 7-decimal fixed-point rendering `'{:.7f}'.format(value)` used by
`MeshObject.__encode_tuple` (line 76), on the exact-rational model of the
Python float. -/
def format7 (q : ℚ) : List Char := if q < 0 then '-' :: format7abs (-q) else format7abs q

/-- The rational actually denoted by `format7 q`: `q` rounded to 7 decimal
places. -/
def round7 (q : ℚ) : ℚ :=
  if q < 0 then -(((round7num (-q)).toNat : ℚ) / 10000000)
  else ((round7num q).toNat : ℚ) / 10000000

/-- `MeshObject.__encode_tuple` (lines 75-76): a space then the 7-decimal
rendering, for each component. -/
def encodeTuple (data : List ℚ) : List Char := (data.map fun v => ' ' :: format7 v).flatten

/-- ASCII decimal digit test. -/
def isDigitCh (c : Char) : Bool := 48 ≤ c.toNat && c.toNat ≤ 57

/-- Value of a decimal digit character. -/
def digitVal (c : Char) : ℕ := c.toNat - 48

/-- Decimal value of a digit string. -/
def parseNat (ds : List Char) : ℕ := ds.foldl (fun a c => a * 10 + digitVal c) 0

/-- Nonempty all-digit string, or failure. -/
def pyNat (s : List Char) : Option ℕ :=
  if s = [] then none else if s.all isDigitCh then some (parseNat s) else none

/-- Model of Python `int(token)` on the token alphabet the parser can
produce: optional sign then decimal digits; anything else raises
`ValueError` (`none`). -/
def pyInt (s : List Char) : Option ℤ :=
  match s with
  | [] => none
  | c :: rest =>
    if c = '-' then (pyNat rest).map fun n => -(n : ℤ)
    else if c = '+' then (pyNat rest).map fun n => (n : ℤ)
    else (pyNat (c :: rest)).map fun n => (n : ℤ)

/-- Exponent suffix of a float literal: empty, or `e`/`E`, optional sign,
digits. -/
def pyExp (mag : ℚ) : List Char → Option ℚ
  | [] => some mag
  | c :: rest =>
    if c = 'e' ∨ c = 'E' then
      match rest with
      | '-' :: ds => (pyNat ds).map fun e => mag / (10 : ℚ) ^ e
      | '+' :: ds => (pyNat ds).map fun e => mag * (10 : ℚ) ^ e
      | ds => (pyNat ds).map fun e => mag * (10 : ℚ) ^ e
    else none

/-- Unsigned float literal: `digits [. digits] [exp]` with at least one
mantissa digit. -/
def pyFloatMag (s : List Char) : Option ℚ :=
  match s.dropWhile isDigitCh with
  | '.' :: r2 =>
    if s.takeWhile isDigitCh = [] ∧ r2.takeWhile isDigitCh = [] then none
    else pyExp ((parseNat (s.takeWhile isDigitCh) : ℚ) +
      (parseNat (r2.takeWhile isDigitCh) : ℚ) / (10 : ℚ) ^ (r2.takeWhile isDigitCh).length)
      (r2.dropWhile isDigitCh)
  | r1 =>
    if s.takeWhile isDigitCh = [] then none
    else pyExp (parseNat (s.takeWhile isDigitCh) : ℚ) r1

/-- Model of Python `float(token)` on the decimal-literal alphabet (the
parser's tokens never contain the letters of `inf`/`nan`, because `v`, `n`,
`t` and `f` bytes are consumed by the state machine and never appended to a
token). -/
def pyFloat (s : List Char) : Option ℚ :=
  match s with
  | [] => none
  | c :: rest =>
    if c = '-' then (pyFloatMag rest).map fun q => -q
    else if c = '+' then pyFloatMag rest
    else pyFloatMag (c :: rest)

/-- `vertex_map.get(x)` of `MeshObject.__load` (line 63): the map holds the
vertices keyed 1..n in creation order, so key `x` resolves to allocation id
`x - 1` when `1 <= x <= n`, else `None`.  The key is the parsed token value;
Python dict lookup finds an integer key from an equal float (`hash(2.0) ==
hash(2)`), hence the integrality test on the rational. -/
def resolveRef (nverts : ℕ) (x : ℚ) : Option ℕ :=
  if x.den = 1 ∧ 1 ≤ x.num ∧ x.num ≤ (nverts : ℤ) then some (x.num.toNat - 1) else none

/-- The `'# {} verticies'` / `'# {} elements'` count comment lines of
`MeshObject.dump`. -/
def countComment (n : ℕ) (label : List Char) : List Char :=
  '#' :: ' ' :: (natChars n ++ ' ' :: (label ++ ['\n']))

/-- A `v` line as written by `dump` (lines 172-174). -/
def vLineChars (ps : List ℚ) : List Char := 'v' :: (encodeTuple ps ++ ['\n'])

/-- A `vn` line as written by `dump` (lines 175-178). -/
def vnLineChars (ps : List ℚ) : List Char := 'v' :: 'n' :: (encodeTuple ps ++ ['\n'])

/-- A `vt` line as written by `dump` (lines 179-182). -/
def vtLineChars (ps : List ℚ) : List Char := 'v' :: 't' :: (encodeTuple ps ++ ['\n'])

/-- The per-vertex output of `dump`: the position line, then the normal and
texcoord lines guarded by Python tuple truthiness (`if vertex.normal:` /
`if vertex.texcoord:`), i.e. emitted unless the stored tuple is empty. -/
def vertexLines (v : VertexObject) : List Char :=
  vLineChars v.position ++
    ((if v.normal = [] then [] else vnLineChars v.normal) ++
     (if v.texcoord = [] then [] else vtLineChars v.texcoord))

/-- The `' {i}/{i}/{i}'` slot text of a face line (line 186). -/
def faceTok (n : ℕ) : List Char :=
  ' ' :: (natChars n ++ '/' :: (natChars n ++ '/' :: natChars n))

/-- Map a fallible function over a list, failing at the first failure (the
behaviour of a Python loop whose body can raise). -/
def mapOpt (f : α → Option β) : List α → Option (List β)
  | [] => some []
  | a :: rest =>
    match f a, mapOpt f rest with
    | some b, some bs => some (b :: bs)
    | _, _ => none

/-- A face line of `dump` (lines 184-187): each slot's current `index`
repeated across the three `/`-separated fields: `none` models the
`AttributeError` of `vertex.index` on an absent (`None`) slot. -/
def faceLine (st : List VertexObject) (t : Triangle) : Option (List Char) :=
  match mapOpt (fun s => s.map fun i => faceTok (getV st i).index) t with
  | none => none
  | some toks => some ('f' :: (toks.flatten ++ ['\n']))

/-- `MeshObject.dump` (lines 168-190): dedup (reassigning indices), vertex
lines, vertex-count comment, face lines, face-count comment. -/
def dump (m : MeshObject) : Option (List Char) :=
  match getUniqueVertices m with
  | none => none
  | some (m1, ids) =>
    match mapOpt (faceLine m1.store) m1.triangles with
    | none => none
    | some faces =>
      some ((ids.map fun i => vertexLines (getV m1.store i)).flatten ++
        (countComment ids.length (("verticies").toList) ++
          (faces.flatten ++ countComment m1.triangles.length (("elements").toList))))

/-- Modelled from the spec (§4.4): the serializer that emits the normal and
texcoord lines unconditionally after every position line, used to state that
the source `dump` realises exactly this on vertices whose normal/texcoord
tuples are nonempty (in particular on the never-set defaults). -/
def dumpUncond (m : MeshObject) : Option (List Char) :=
  match getUniqueVertices m with
  | none => none
  | some (m1, ids) =>
    match mapOpt (faceLine m1.store) m1.triangles with
    | none => none
    | some faces =>
      some ((ids.map fun i =>
          vLineChars (getV m1.store i).position ++
            (vnLineChars (getV m1.store i).normal ++ vtLineChars (getV m1.store i).texcoord)).flatten ++
        (countComment ids.length (("verticies").toList) ++
          (faces.flatten ++ countComment m1.triangles.length (("elements").toList))))

/-- `MeshObject.append` (lines 192-194) on two meshes over a common store:
the triangles of `other` are appended by reference. -/
def appendMesh (m other : MeshObject) : MeshObject :=
  { m with triangles := m.triangles ++ other.triangles }

/-- The parser's record kinds (`RecordType` in objmixer.py). -/
inductive RecordType
  | position
  | normal
  | texcoord
  | triangle
deriving DecidableEq

/-- The loop state of `MeshObject.__load`: pending token text, the parsed
field accumulator `record`, the current record kind, the previous byte
(`none` for the initial `b''`), the allocation id of the "current" vertex,
the heap of vertices allocated so far (its length is `vertex_idx`, and the
vertex map sends key `k` to allocation id `k-1`), and the triangles parsed
so far. -/
structure PState where
  value : List Char
  record : List ℚ
  valueType : RecordType
  prev : Option Char
  vertex : Option ℕ
  store : List VertexObject
  triangles : List Triangle
deriving DecidableEq

/-- Token decoding at a field boundary (lines 50-53): face tokens are split
at the first `/` and read as an integer, all other tokens as a float. -/
def parseValue (vt : RecordType) (s : List Char) : Option ℚ :=
  if vt = RecordType.triangle then
    (pyInt (s.takeWhile fun c => decide (c ≠ '/'))).map fun n => (n : ℚ)
  else pyFloat s

/-- The fresh `VertexObject()` allocated on whitespace after a bare `v`
(lines 41-46), already carrying its 1-based parse index. -/
def newVertex (idx : ℕ) : VertexObject :=
  { position := [0, 0, 0], normal := [0, 0, 0], texcoord := [0, 0], index := idx }

/-- Lines 41-54 of `__load`: what happens to the pending token when a space
or newline arrives — vertex creation after a bare `v`, nothing after another
space, otherwise decode a nonempty token into `record`; the token buffer is
cleared in every case. -/
def flushValue (s : PState) : Option PState :=
  if s.prev = some 'v' then
    some { s with store := s.store ++ [newVertex (s.store.length + 1)],
                  vertex := some s.store.length, valueType := RecordType.position, value := [] }
  else if s.prev = some ' ' then some { s with value := [] }
  else if s.value = [] then some { s with value := [] }
  else
    match parseValue s.valueType s.value with
    | none => none
    | some q => some { s with record := s.record ++ [q], value := [] }

/-- Lines 55-65 of `__load`: at a newline the accumulated record is flushed
into the current vertex (position/normal, texcoord only when exactly 2
fields) or, for a face, resolved through the vertex map and appended to the
triangles when the collected tuple is nonempty; the record is cleared.
Assigning a field of the current vertex when none exists is Python's
`AttributeError` on `None` (`none` here). -/
def flushLine (s : PState) : Option PState :=
  match s.valueType with
  | RecordType.normal =>
    match s.vertex with
    | none => none
    | some i => some { s with store := s.store.set i { getV s.store i with normal := s.record },
                              record := [] }
  | RecordType.position =>
    match s.vertex with
    | none => none
    | some i => some { s with store := s.store.set i { getV s.store i with position := s.record },
                              record := [] }
  | RecordType.texcoord =>
    if s.record.length = 2 then
      match s.vertex with
      | none => none
      | some i => some { s with store := s.store.set i { getV s.store i with texcoord := s.record },
                                record := [] }
    else some { s with record := [] }
  | RecordType.triangle =>
    some { s with
           triangles := s.triangles ++
             (if s.record = [] then [] else [s.record.map (resolveRef s.store.length)])
           record := [] }

/-- Whitespace handling of `__load` (lines 40-65): flush the pending token,
then on a newline flush the record. -/
def stepWS (s : PState) (c : Char) : Option PState :=
  match flushValue s with
  | none => none
  | some s2 =>
    if c = '\n' then
      match flushLine s2 with
      | none => none
      | some s3 => some { s3 with prev := some c }
    else some { s2 with prev := some c }

/-- One non-comment byte of the `__load` loop (lines 31-72): the `v`, `n`,
`t`, `f` mode bytes (never appended to the token), whitespace, or a plain
byte appended to the pending token. -/
def step (s : PState) (c : Char) : Option PState :=
  if c = 'v' then some { s with prev := some c }
  else if c = 'n' then
    some { s with valueType := (if s.prev = some 'v' then RecordType.normal else s.valueType),
                  prev := some c }
  else if c = 't' then
    some { s with valueType := (if s.prev = some 'v' then RecordType.texcoord else s.valueType),
                  prev := some c }
  else if c = 'f' then
    some { s with valueType := (if s.prev = some '\n' then RecordType.triangle else s.valueType),
                  prev := some c }
  else if c = ' ' ∨ c = '\n' then stepWS s c
  else some { s with value := s.value ++ [c], prev := some c }

/-- A step-only run of the parser over a `#`-free character list. -/
def steps (s : PState) : List Char → Option PState
  | [] => some s
  | c :: rest =>
    match step s c with
    | none => none
    | some s' => steps s' rest

/-- The read loop of `__load`: one byte at a time. The Boolean mode models
being inside the comment loop of lines 66-69, which discards every byte up
to and including the next newline and then continues the outer loop with
`prev` equal to that newline.  When the stream ends inside a comment both
loops terminate (Python leaves `prev = b''`, which nothing observes since
the stream is over). -/
def loadAux (s : PState) : Bool → List Char → Option PState
  | _, [] => some s
  | true, c :: rest =>
    if c = '\n' then loadAux { s with prev := some '\n' } false rest
    else loadAux s true rest
  | false, c :: rest =>
    if c = '#' then loadAux s true rest
    else
      match step s c with
      | none => none
      | some s' => loadAux s' false rest

/-- The initial state of `__load` (lines 24-29). -/
def initState : PState :=
  { value := [], record := [], valueType := RecordType.position, prev := none,
    vertex := none, store := [], triangles := [] }

/-- `MeshObject.__load` over a whole byte stream: the resulting mesh, or
`none` when a malformed token or a misplaced record line raises. -/
def loadMesh (input : List Char) : Option MeshObject :=
  match loadAux initState false input with
  | none => none
  | some s => some { store := s.store, triangles := s.triangles }

/-- A byte that the `__load` state machine neither interprets as a mode
byte (`v`, `n`, `t`, `f`), a delimiter (space, newline) nor a comment
opener (`#`): it lands in the final `else` and is appended to the pending
token. -/
def isPlain (c : Char) : Prop :=
  c ≠ 'v' ∧ c ≠ 'n' ∧ c ≠ 't' ∧ c ≠ 'f' ∧ c ≠ ' ' ∧ c ≠ '\n' ∧ c ≠ '#'

/-- Tokens each followed by one separating space, as they occur in the
middle of a record line. -/
def unitsChars (tvs : List (List Char × ℚ)) : List Char :=
  (tvs.map fun p => p.1 ++ [' ']).flatten

/-- A whole face line as `dump` renders it for the 1-based indices
`idxs`. -/
def faceLineChars (idxs : List ℕ) : List Char :=
  'f' :: ((idxs.map faceTok).flatten ++ ['\n'])

/-- The `'{i}/{i}/{i}'` part of a face slot (the token the parser sees,
without the leading space). -/
def faceTokBody (n : ℕ) : List Char :=
  natChars n ++ '/' :: (natChars n ++ '/' :: natChars n)

/-- Every slot of every triangle holds a resolved vertex reference. -/
def slotsResolved (m : MeshObject) : Prop := ∀ t ∈ m.triangles, ∀ s ∈ t, s ≠ none

/-- A slot reference is either absent or points below the store size. -/
def slotValid (n : ℕ) : Option ℕ → Prop
  | none => True
  | some i => i < n

instance slotValidDec (n : ℕ) : (s : Option ℕ) → Decidable (slotValid n s)
  | none => isTrue trivial
  | some i => Nat.decLt i n

/-- Every resolved slot points into the store (true of every parsed mesh). -/
def slotsValid (m : MeshObject) : Prop :=
  ∀ t ∈ m.triangles, ∀ s ∈ t, slotValid m.store.length s

/-- No face tuple is empty (true of every parsed mesh: empty face tuples
are falsy and dropped on line 64). -/
def facesNonempty (m : MeshObject) : Prop := ∀ t ∈ m.triangles, t ≠ []

/-- Every stored position has (at least) its three coordinates. -/
def posDim3 (m : MeshObject) : Prop := ∀ v ∈ m.store, 3 ≤ v.position.length

/-- Every stored normal has (at least) three components. -/
def nrmDim3 (m : MeshObject) : Prop := ∀ v ∈ m.store, 3 ≤ v.normal.length

/-- All position coordinates lie within the `[-1000000, 1000000]` sentinel
range of `align`. -/
def coordsInRange (m : MeshObject) : Prop :=
  ∀ v ∈ m.store, ∀ x ∈ v.position, -1000000 ≤ x ∧ x ≤ 1000000

/-- `v` is the least element of the list `xs`. -/
def isLeastL (xs : List ℚ) (v : ℚ) : Prop := v ∈ xs ∧ ∀ y ∈ xs, v ≤ y

/-- `v` is the greatest element of the list `xs`. -/
def isGreatestL (xs : List ℚ) (v : ℚ) : Prop := v ∈ xs ∧ ∀ y ∈ xs, y ≤ v

/-- The `k`-th coordinates of the vertices with the given allocation ids. -/
def coordsAt (st : List VertexObject) (ids : List ℕ) (k : ℕ) : List ℚ :=
  ids.map fun i => (getV st i).position.getD k 0

/-- The `k`-th coordinate of every position in a list. -/
def axisCoords (ps : List (List ℚ)) (k : ℕ) : List ℚ := ps.map fun p => p.getD k 0

/-- The per-vertex effect of `__rotate_with_matrix`: position and normal
replaced by the row products. -/
def rotV (mat : Mat3) (v : VertexObject) : VertexObject :=
  { v with
    position := [vdot mat.r0 (v.position.getD 0 0, v.position.getD 1 0, v.position.getD 2 0),
      vdot mat.r1 (v.position.getD 0 0, v.position.getD 1 0, v.position.getD 2 0),
      vdot mat.r2 (v.position.getD 0 0, v.position.getD 1 0, v.position.getD 2 0)],
    normal := [vdot mat.r0 (v.normal.getD 0 0, v.normal.getD 1 0, v.normal.getD 2 0),
      vdot mat.r1 (v.normal.getD 0 0, v.normal.getD 1 0, v.normal.getD 2 0),
      vdot mat.r2 (v.normal.getD 0 0, v.normal.getD 1 0, v.normal.getD 2 0)] }

/-- The per-vertex effect of the `align` subtraction loop. -/
def shiftV (a : ℚ × ℚ × ℚ) (v : VertexObject) : VertexObject :=
  { v with position := [v.position.getD 0 0 - a.1, v.position.getD 1 0 - a.2.1,
      v.position.getD 2 0 - a.2.2] }

/-- The vertex that reparsing a dumped vertex block reconstructs: position
(and a nonempty normal, and an exactly-2-component texcoord) survive up to
7-decimal rounding; an empty normal is not re-emitted and an off-arity
texcoord is dropped by the `len(record) == 2` guard, so both fall back to
the constructor defaults. -/
def reparseVertex (idx : ℕ) (v : VertexObject) : VertexObject :=
  { position := v.position.map round7,
    normal := if v.normal = [] then [0, 0, 0] else v.normal.map round7,
    texcoord := if v.texcoord.length = 2 then v.texcoord.map round7 else [0, 0],
    index := idx }

/-- Reparsing a whole run of dumped vertex blocks: the `k`-th vertex of the
run is reconstructed with 1-based parse index `k + 1` on top of `k`
previously allocated vertices. -/
def reparseAll (vs : List VertexObject) (k : ℕ) : List VertexObject :=
  match vs with
  | [] => []
  | v :: rest => reparseVertex (k + 1) v :: reparseAll rest (k + 1)

/-- The triangle that reparsing a dumped face line yields: each resolved
slot's current 1-based `index` is re-rendered and looked up in a vertex map
holding `nverts` keys. -/
def faceTriOf (st : List VertexObject) (nverts : ℕ) (t : Triangle) : Triangle :=
  ((t.filterMap id).map fun i => (getV st i).index).map fun n =>
    resolveRef nverts ((n : ℕ) : ℚ)

/-- A two-vertex mesh (positions (0,0,0) and (1,0,1)) whose triangle
references both vertices: a minimal mesh on which alignment is not
idempotent. -/
def cexMesh2 : MeshObject :=
  { store := [{ position := [0, 0, 0], normal := [0, 0, 0], texcoord := [0, 0], index := 0 },
      { position := [1, 0, 1], normal := [0, 0, 0], texcoord := [0, 0], index := 0 }],
    triangles := [[some 0, some 1, some 0]] }

/-- A one-vertex mesh whose X coordinate 2000000 exceeds the 1000000
sentinel of `align`. -/
def cexMeshFar : MeshObject :=
  { store := [{ position := [2000000, 0, 0], normal := [0, 0, 0], texcoord := [0, 0], index := 0 }],
    triangles := [[some 0, some 0, some 0]] }

/-- A one-vertex mesh at the origin: the anchor is the zero vector and
alignment is idempotent on it. -/
def exMeshOrigin : MeshObject :=
  { store := [{ position := [0, 0, 0], normal := [0, 0, 0], texcoord := [0, 0], index := 0 }],
    triangles := [[some 0, some 0, some 0]] }

/-- A one-triangle mesh whose only vertex sits at (0, 1, 0). -/
def exMeshYUnit : MeshObject :=
  { store := [{ position := [0, 1, 0], normal := [0, 0, 0], texcoord := [0, 0], index := 0 }],
    triangles := [[some 0, some 0, some 0]] }

/-- The spec's deduplication example: four distinct records A,B,C,D (here
ids 0,1,2,3) with triangles (A,B,C) and (B,D,A). -/
def exMeshABCD : MeshObject :=
  { store := List.replicate 4 (default : VertexObject),
    triangles := [[some 0, some 1, some 2], [some 1, some 3, some 0]] }

/-! ### Store access lemmas -/

theorem getV_set (st : List VertexObject) (i j : ℕ) (v : VertexObject) :
    getV (st.set i v) j = if i = j ∧ i < st.length then v else getV st j := by
  by_cases hij : i = j
  · subst hij
    by_cases hi : i < st.length
    · simp [getV, List.getD_eq_getElem?_getD, List.getElem?_set_self hi, hi]
    · rw [List.set_eq_of_length_le (Nat.le_of_not_lt hi)]
      simp [hi]
  · simp [getV, List.getD_eq_getElem?_getD, List.getElem?_set_ne hij, hij]

theorem getV_append_last (st : List VertexObject) (v : VertexObject) :
    getV (st ++ [v]) st.length = v := by
  simp [getV, List.getD_eq_getElem?_getD, List.getElem?_append_right (Nat.le_refl _)]

theorem getV_append_left (st : List VertexObject) (v : VertexObject) {j : ℕ}
    (h : j < st.length) : getV (st ++ [v]) j = getV st j := by
  simp [getV, List.getD_eq_getElem?_getD, List.getElem?_append_left h]

theorem set_append_last (st : List VertexObject) (v w : VertexObject) :
    (st ++ [v]).set st.length w = st ++ [w] := by
  rw [List.set_append_right _ _ (Nat.le_refl _)]
  simp

/-! ### Index assignment (`vertex.index = len(vertex_array)`) -/

theorem assignIndices_length (ids : List ℕ) (st : List VertexObject) (k : ℕ) :
    (assignIndices st k ids).length = st.length := by
  induction ids generalizing st k with
  | nil => rfl
  | cons i rest ih => rw [assignIndices, ih, List.length_set]

theorem getV_assignIndices (ids : List ℕ) (hnd : ids.Nodup) (st : List VertexObject)
    (k j : ℕ) :
    getV (assignIndices st k ids) j =
      if j ∈ ids ∧ j < st.length then { getV st j with index := k + ids.indexOf j + 1 }
      else getV st j := by
  induction ids generalizing st k with
  | nil => simp [assignIndices]
  | cons i rest ih =>
    rw [assignIndices, ih (List.Nodup.of_cons hnd), getV_set]
    rcases List.nodup_cons.1 hnd with ⟨hni, _⟩
    by_cases hj : j = i
    · subst hj
      have hjr : j ∉ rest := hni
      simp only [hjr, false_and, if_false, List.length_set]
      by_cases hl : j < st.length
      · simp [hl, List.indexOf_cons_self]
      · simp [hl]
    · have hne : ¬(i = j ∧ i < st.length) := fun hc => hj (hc.1.symm)
      simp only [List.length_set, hne, if_false]
      by_cases hm : j ∈ rest
      · have hcons : j ∈ i :: rest := List.mem_cons_of_mem _ hm
        by_cases hl : j < st.length
        · simp only [hm, hl, and_self, if_true, hcons, true_and]
          rw [List.indexOf_cons_ne _ (fun h => hj h.symm)]
          congr 1
          omega
        · simp [hm, hl, hcons]
      · have hcons : j ∉ (i :: rest) := by
          simp [List.mem_cons, hj, hm]
        simp [hm, hcons]

theorem assignIndices_fields (ids : List ℕ) (hnd : ids.Nodup) (st : List VertexObject)
    (k j : ℕ) :
    (getV (assignIndices st k ids) j).position = (getV st j).position ∧
    (getV (assignIndices st k ids) j).normal = (getV st j).normal ∧
    (getV (assignIndices st k ids) j).texcoord = (getV st j).texcoord := by
  rw [getV_assignIndices ids hnd st k j]
  by_cases hc : j ∈ ids ∧ j < st.length
  · simp [hc]
  · simp [hc]

/-! ### The subtraction loop of `align` -/

theorem alignApply_length (ids : List ℕ) (a : ℚ × ℚ × ℚ) (st : List VertexObject) :
    (alignApply a st ids).length = st.length := by
  induction ids generalizing st with
  | nil => rfl
  | cons i rest ih => rw [alignApply, ih, List.length_set]

theorem getV_alignApply (ids : List ℕ) (hnd : ids.Nodup) (a : ℚ × ℚ × ℚ)
    (st : List VertexObject) (j : ℕ) :
    getV (alignApply a st ids) j =
      if j ∈ ids ∧ j < st.length then shiftV a (getV st j) else getV st j := by
  induction ids generalizing st with
  | nil => simp [alignApply]
  | cons i rest ih =>
    rw [alignApply, ih (List.Nodup.of_cons hnd), getV_set]
    rcases List.nodup_cons.1 hnd with ⟨hni, _⟩
    by_cases hj : j = i
    · subst hj
      simp only [hni, false_and, if_false, List.length_set]
      by_cases hl : j < st.length
      · simp [hl, shiftV]
      · simp [hl]
    · have hne : ¬(i = j ∧ i < st.length) := fun hc => hj (hc.1.symm)
      simp only [List.length_set, hne, if_false]
      by_cases hm : j ∈ rest
      · simp [hm, List.mem_cons_of_mem _ hm]
      · have hcons : j ∉ (i :: rest) := by simp [List.mem_cons, hj, hm]
        simp [hm, hcons]

/-! ### The per-vertex loop of `__rotate_with_matrix` -/

theorem get3_of_len {p : List ℚ} (h : 3 ≤ p.length) :
    get3 p = some (p.getD 0 0, p.getD 1 0, p.getD 2 0) := by
  match p, h with
  | a :: b :: c :: rest, _ => simp [get3]

theorem rotateApply_eq (ids : List ℕ) (hnd : ids.Nodup) (mat : Mat3)
    (st : List VertexObject)
    (h : ∀ i ∈ ids, 3 ≤ (getV st i).position.length ∧ 3 ≤ (getV st i).normal.length) :
    ∃ st', rotateApply mat st ids = some st' ∧ st'.length = st.length ∧
      ∀ j, getV st' j =
        if j ∈ ids ∧ j < st.length then rotV mat (getV st j) else getV st j := by
  induction ids generalizing st with
  | nil => exact ⟨st, rfl, rfl, fun j => by simp⟩
  | cons i rest ih =>
    rcases List.nodup_cons.1 hnd with ⟨hni, hndr⟩
    obtain ⟨hp, hn⟩ := h i (List.mem_cons_self i rest)
    have hrec : ∀ i' ∈ rest, 3 ≤ (getV (st.set i (rotV mat (getV st i))) i').position.length ∧
        3 ≤ (getV (st.set i (rotV mat (getV st i))) i').normal.length := by
      intro i' hi'
      rw [getV_set]
      have : ¬(i = i' ∧ i < st.length) := fun hc => hni (hc.1 ▸ hi')
      rw [if_neg this]
      exact h i' (List.mem_cons_of_mem _ hi')
    obtain ⟨st', heq, hlen, hget⟩ := ih hndr (st.set i (rotV mat (getV st i))) hrec
    refine ⟨st', ?_, ?_, ?_⟩
    · rw [rotateApply, get3_of_len hp, get3_of_len hn]
      exact heq
    · rw [hlen, List.length_set]
    · intro j
      rw [hget j, getV_set, List.length_set]
      by_cases hj : j = i
      · subst hj
        simp only [hni, false_and, if_false]
        by_cases hl : j < st.length
        · simp [hl, List.mem_cons]
        · simp [hl]
      · have hne : ¬(i = j ∧ i < st.length) := fun hc => hj (hc.1.symm)
        rw [if_neg hne]
        by_cases hm : j ∈ rest
        · simp [hm, List.mem_cons_of_mem _ hm]
        · have hcons : j ∉ (i :: rest) := by simp [List.mem_cons, hj, hm]
          simp [hm, hcons]

/-! ### Deduplication lemmas -/

theorem firstDedup_eq_fdFold (slots : List (Option ℕ)) (acc : List ℕ)
    (h : ∀ s ∈ slots, s ≠ none) :
    firstDedup acc slots = some (fdFold acc (slots.filterMap id)) := by
  induction slots generalizing acc with
  | nil => rfl
  | cons s rest ih =>
    match s, h s (List.mem_cons_self s rest) with
    | some i, _ =>
      rw [firstDedup]
      rw [ih _ fun s' hs' => h s' (List.mem_cons_of_mem _ hs')]
      rfl

theorem firstDedup_none_iff (slots : List (Option ℕ)) (acc : List ℕ) :
    firstDedup acc slots = none ↔ none ∈ slots := by
  induction slots generalizing acc with
  | nil => simp [firstDedup]
  | cons s rest ih =>
    cases s with
    | none => simp [firstDedup]
    | some i => simp [firstDedup, ih]

theorem fdRecF_congr : ∀ (fuel fuel' : ℕ) (w : List ℕ), w.length ≤ fuel →
    w.length ≤ fuel' → fdRecF fuel w = fdRecF fuel' w := by
  intro fuel
  induction fuel with
  | zero =>
    intro fuel' w hw _
    have hnil : w = [] := List.eq_nil_of_length_eq_zero (Nat.le_zero.1 hw)
    subst hnil
    cases fuel' <;> rfl
  | succ fuel ih =>
    intro fuel' w hw hw'
    cases w with
    | nil => cases fuel' <;> rfl
    | cons i w' =>
      cases fuel' with
      | zero => exact absurd hw' (by simp)
      | succ fuel'' =>
        rw [fdRecF, fdRecF]
        congr 1
        exact ih fuel'' _
          (le_trans (List.length_filter_le _ _) (Nat.le_of_succ_le_succ hw))
          (le_trans (List.length_filter_le _ _) (Nat.le_of_succ_le_succ hw'))

theorem fdRec_cons (i : ℕ) (w : List ℕ) :
    fdRec (i :: w) = i :: fdRec (w.filter fun a => decide (a ≠ i)) := by
  rw [fdRec, List.length_cons, fdRecF, fdRec]
  congr 1
  exact fdRecF_congr _ _ _ (List.length_filter_le _ _) (le_refl _)

theorem mem_fdRecF {a : ℕ} : ∀ (fuel : ℕ) (w : List ℕ), w.length ≤ fuel →
    (a ∈ fdRecF fuel w ↔ a ∈ w) := by
  intro fuel
  induction fuel with
  | zero =>
    intro w hw
    have hnil : w = [] := List.eq_nil_of_length_eq_zero (Nat.le_zero.1 hw)
    subst hnil
    simp [fdRecF]
  | succ fuel ih =>
    intro w hw
    cases w with
    | nil => simp [fdRecF]
    | cons i w' =>
      rw [fdRecF, List.mem_cons, List.mem_cons,
        ih _ (le_trans (List.length_filter_le _ _) (Nat.le_of_succ_le_succ hw)),
        List.mem_filter]
      by_cases hai : a = i
      · simp [hai]
      · simp [hai]

theorem mem_fdRec {a : ℕ} {w : List ℕ} : a ∈ fdRec w ↔ a ∈ w :=
  mem_fdRecF w.length w (le_refl _)

theorem fdRecF_nodup : ∀ (fuel : ℕ) (w : List ℕ), w.length ≤ fuel →
    (fdRecF fuel w).Nodup := by
  intro fuel
  induction fuel with
  | zero =>
    intro w hw
    have hnil : w = [] := List.eq_nil_of_length_eq_zero (Nat.le_zero.1 hw)
    subst hnil
    simp [fdRecF]
  | succ fuel ih =>
    intro w hw
    cases w with
    | nil => simp [fdRecF]
    | cons i w' =>
      rw [fdRecF]
      have hlf : (w'.filter fun a => decide (a ≠ i)).length ≤ fuel :=
        le_trans (List.length_filter_le _ _) (Nat.le_of_succ_le_succ hw)
      refine List.nodup_cons.2 ⟨?_, ih _ hlf⟩
      rw [mem_fdRecF _ _ hlf, List.mem_filter]
      simp

theorem fdRec_nodup (w : List ℕ) : (fdRec w).Nodup := fdRecF_nodup _ _ (le_refl _)

theorem fdFold_eq_fdRec_aux (w : List ℕ) (acc : List ℕ) :
    fdFold acc w = acc ++ fdRec (w.filter fun a => decide (a ∉ acc)) := by
  induction w generalizing acc with
  | nil => simp [fdFold, fdRec, fdRecF]
  | cons i rest ih =>
    rw [fdFold]
    by_cases hi : i ∈ acc
    · rw [if_pos hi, ih, List.filter_cons]
      simp [hi]
    · rw [if_neg hi, ih, List.filter_cons]
      have hd : decide (i ∉ acc) = true := decide_eq_true hi
      rw [hd, if_pos rfl, fdRec_cons, List.append_assoc, List.singleton_append,
        List.filter_filter]
      congr 3
      apply List.filter_congr
      intro a _
      by_cases hai : a = i
      · simp [hai, hi]
      · by_cases hac : a ∈ acc
        · simp [hai, hac]
        · simp [hai, hac, List.mem_append]

theorem fdFold_nil_eq (w : List ℕ) : fdFold [] w = fdRec w := by
  rw [fdFold_eq_fdRec_aux]
  simp

theorem getUnique_of_resolved {m : MeshObject} (h : slotsResolved m) :
    getUniqueVertices m =
      some ({ m with store := assignIndices m.store 0 (fdRec (slotIds m)) },
        fdRec (slotIds m)) := by
  have hres : ∀ s ∈ m.triangles.flatten, s ≠ none := by
    intro s hs
    rcases List.mem_flatten.1 hs with ⟨t, ht, hst⟩
    exact h t ht s hst
  rw [getUniqueVertices, firstDedup_eq_fdFold _ _ hres, fdFold_nil_eq]
  rfl

theorem mem_slotIds {m : MeshObject} {i : ℕ} :
    i ∈ slotIds m ↔ ∃ t ∈ m.triangles, some i ∈ t := by
  rw [slotIds, List.mem_filterMap]
  constructor
  · rintro ⟨s, hs, rfl⟩
    rcases List.mem_flatten.1 hs with ⟨t, ht, hst⟩
    exact ⟨t, ht, hst⟩
  · rintro ⟨t, ht, hst⟩
    exact ⟨some i, List.mem_flatten_of_mem ht hst, rfl⟩

theorem slotIds_lt_store {m : MeshObject} (hval : slotsValid m) {i : ℕ}
    (h : i ∈ slotIds m) : i < m.store.length := by
  rcases mem_slotIds.1 h with ⟨t, ht, hst⟩
  exact hval t ht (some i) hst

/-! ### Arithmetic bridges -/

theorem pymin_eq (a b : ℚ) : pymin a b = min a b := by
  rw [pymin, min_def]

theorem pymax_eq (a b : ℚ) : pymax a b = max a b := by
  rw [pymax, max_def]
  rcases le_total a b with h | h
  · by_cases he : b ≤ a
    · simp [he, h, le_antisymm he h]
    · simp [he, h]
  · by_cases he : a ≤ b
    · simp [he, h, le_antisymm he h]
    · simp [h, he]

theorem natCharsF_congr : ∀ (fuel fuel' n : ℕ), n < fuel → n < fuel' →
    natCharsF fuel n = natCharsF fuel' n := by
  intro fuel
  induction fuel with
  | zero => intro fuel' n h _; exact absurd h (Nat.not_lt_zero n)
  | succ fuel ih =>
    intro fuel' n h h'
    cases fuel' with
    | zero => exact absurd h' (Nat.not_lt_zero n)
    | succ fuel'' =>
      rw [natCharsF, natCharsF]
      by_cases hn : n < 10
      · simp [hn]
      · rw [if_neg hn, if_neg hn]
        congr 1
        have hdiv : n / 10 < n := Nat.div_lt_self (by omega) (by omega)
        exact ih fuel'' (n / 10) (by omega) (by omega)

theorem natChars_eq (n : ℕ) :
    natChars n = if n < 10 then [digitCh n] else natChars (n / 10) ++ [digitCh (n % 10)] := by
  rw [natChars, natCharsF]
  by_cases hn : n < 10
  · simp [hn]
  · rw [if_neg hn, if_neg hn]
    congr 1
    rw [natChars]
    have hdiv : n / 10 < n := Nat.div_lt_self (by omega) (by omega)
    exact natCharsF_congr _ _ _ (by omega) (by omega)

/-! ### Face line serialization -/

theorem mapOpt_isSome {f : α → Option β} {l : List α}
    (h : ∀ a ∈ l, ∃ b, f a = some b) : ∃ bs, mapOpt f l = some bs := by
  induction l with
  | nil => exact ⟨[], rfl⟩
  | cons a rest ih =>
    obtain ⟨bs, hbs⟩ := ih fun a' ha' => h a' (List.mem_cons_of_mem _ ha')
    obtain ⟨b, hb⟩ := h a (List.mem_cons_self a rest)
    exact ⟨b :: bs, by rw [mapOpt, hb, hbs]⟩

theorem faceLine_isSome {st : List VertexObject} {t : Triangle}
    (h : ∀ s ∈ t, s ≠ none) : ∃ cs, faceLine st t = some cs := by
  obtain ⟨toks, htoks⟩ := @mapOpt_isSome _ _ (fun s => s.map fun i => faceTok (getV st i).index)
    t (by
      intro s hs
      match s, h s hs with
      | some i, _ => exact ⟨faceTok (getV st i).index, rfl⟩)
  exact ⟨_, by rw [faceLine, htoks]⟩

theorem mapOpt_faceLine_isSome {st : List VertexObject} {ts : List Triangle}
    (h : ∀ t ∈ ts, ∀ s ∈ t, s ≠ none) :
    ∃ faces, mapOpt (faceLine st) ts = some faces :=
  mapOpt_isSome fun t ht => faceLine_isSome (h t ht)

/-! ### Claim theorems: dedup, rotation identity, dump failure -/

/-- C5: on a mesh whose slots all resolve to stored vertices,
`__get_unique_vertices` returns exactly the distinct-by-identity vertex
records referenced by the triangles — no more, no less — in first-encounter
order (outer loop over triangles in list order, inner loop over the slots),
and assigns the `k`-th returned record the 1-based index `k + 1`. -/
theorem C5_dedup_first_encounter_order (m : MeshObject) (hres : slotsResolved m)
    (hval : slotsValid m) :
    ∃ m' l, getUniqueVertices m = some (m', l) ∧
      l = fdRec (slotIds m) ∧
      l.Nodup ∧
      (∀ i, i ∈ l ↔ ∃ t ∈ m.triangles, some i ∈ t) ∧
      ∀ k, (hk : k < l.length) → (getV m'.store (l.get ⟨k, hk⟩)).index = k + 1 := by
  refine ⟨_, _, getUnique_of_resolved hres, rfl, fdRec_nodup _, ?_, ?_⟩
  · intro i
    rw [mem_fdRec, mem_slotIds]
  · intro k hk
    simp only [List.get_eq_getElem]
    have hmem : (fdRec (slotIds m))[k] ∈ fdRec (slotIds m) := List.getElem_mem hk
    have hlt : (fdRec (slotIds m))[k] < m.store.length :=
      slotIds_lt_store hval (mem_fdRec.1 hmem)
    rw [getV_assignIndices _ (fdRec_nodup _) m.store 0 _, if_pos ⟨hmem, hlt⟩]
    simp only
    rw [List.indexOf_getElem (fdRec_nodup _) k hk]
    omega

/-- C5 witness: the spec's own example — triangles (A,B,C) and (B,D,A) over
four distinct records give the unique list [A,B,C,D] (= [0,1,2,3]) with
indices 1,2,3,4. -/
theorem C5_dedup_first_encounter_order_witness :
    (slotsResolved exMeshABCD ∧ slotsValid exMeshABCD ∧
      fdRec (slotIds exMeshABCD) = [0, 1, 2, 3]) ∧
    (∃ m' l, getUniqueVertices exMeshABCD = some (m', l) ∧
      l = fdRec (slotIds exMeshABCD) ∧
      l.Nodup ∧
      (∀ i, i ∈ l ↔ ∃ t ∈ exMeshABCD.triangles, some i ∈ t) ∧
      ∀ k, (hk : k < l.length) → (getV m'.store (l.get ⟨k, hk⟩)).index = k + 1) :=
  ⟨⟨by unfold slotsResolved; decide, by unfold slotsValid; decide, by decide⟩,
    C5_dedup_first_encounter_order _ (by unfold slotsResolved; decide)
      (by unfold slotsValid; decide)⟩

/-- C7: `rotate` with the zero angle triple is the identity on the whole
mesh object — every single-axis rotation returns before recomputing the
dedup list or touching any position, normal or index field. -/
theorem C7_rotate_zero_identity (trig : ℚ → ℚ × ℚ) (m : MeshObject) :
    rotate trig (0, 0, 0) m = some m := by
  simp [rotate, rotateX, rotateY, rotateZ]

/-- C9: `dump` fails (the dedup pass hits the absent reference and raises)
exactly when some triangle slot is absent; it produces output exactly when
every slot of every triangle is a resolved vertex record. -/
theorem C9_dump_fails_iff_absent_slot (m : MeshObject) :
    dump m = none ↔ ∃ t ∈ m.triangles, none ∈ t := by
  constructor
  · intro hnone
    by_contra hcon
    push_neg at hcon
    have hres : slotsResolved m := by
      intro t ht s hs hsn
      exact hcon t ht (hsn ▸ hs)
    rw [dump, getUnique_of_resolved hres] at hnone
    obtain ⟨faces, hfaces⟩ := @mapOpt_faceLine_isSome
      (assignIndices m.store 0 (fdRec (slotIds m)))
      m.triangles fun t ht s hs => hres t ht s hs
    simp only at hnone
    rw [hfaces] at hnone
    exact Option.noConfusion hnone
  · rintro ⟨t, ht, hnt⟩
    have hfd : firstDedup [] m.triangles.flatten = none :=
      (firstDedup_none_iff _ _).2 (List.mem_flatten_of_mem ht hnt)
    rw [dump, getUniqueVertices, hfd]

/-- C1 counterexample: on the input `v 0 0 0\nf 9 9 9\n` every face index
is unresolvable, yet the parsed mesh retains the face as a triangle of
three absent slots (the tuple `(None, None, None)` is truthy), where the
claim says such a face is dropped. -/
theorem C1_counterexample :
    (loadMesh (("v 0 0 0\nf 9 9 9\n").toList)).map MeshObject.triangles =
        some [[none, none, none]] ∧
      ([[(none : Option ℕ), none, none]] : List Triangle) ≠ [] := by
  constructor
  · decide
  · decide

/-- C2 counterexample: aligning `cexMesh2` once yields anchor (0,0,1);
aligning again yields anchor (-1/2, 0, 1/2) — not the zero vector — and
moves the vertices again, so align ∘ align ≠ align. -/
theorem C2_counterexample :
    ((align cexMesh2).map Prod.snd = some (0, 0, 1) ∧
      ((align cexMesh2).bind fun p => align p.1).map Prod.snd = some (-1/2, 0, 1/2)) ∧
    ¬((-1/2, 0, 1/2) = ((0 : ℚ), (0 : ℚ), (0 : ℚ))) ∧
    ((align cexMesh2).bind fun p => align p.1).map (fun p => p.1.store) ≠
      (align cexMesh2).map (fun p => p.1.store) := by
  refine ⟨⟨?_, ?_⟩, ?_, ?_⟩
  · decide!
  · decide!
  · decide!
  · decide!

/-- C4 counterexample: for the single vertex (2000000, 0, 0) the X extrema
fold is clamped by the 1000000 sentinel, so `align` subtracts the anchor
(500000, 0, 1000000) instead of the claimed true-extrema anchor
((2000000+0)/2, 0, (2000000+0)/2) = (1000000, 0, 1000000). -/
theorem C4_counterexample :
    (align cexMeshFar).map Prod.snd = some (500000, 0, 1000000) ∧
      ¬(((500000 : ℚ), (0 : ℚ), (1000000 : ℚ)) =
        ((2000000 + 0) / 2, 0, (2000000 + 0) / 2)) := by
  constructor
  · decide!
  · decide!

/-! ### Extrema fold lemmas -/

theorem foldl_pymin_eq_min (l : List ℚ) (a : ℚ) : l.foldl pymin a = l.foldl min a := by
  induction l generalizing a with
  | nil => rfl
  | cons y l ih => rw [List.foldl_cons, List.foldl_cons, pymin_eq, ih]

theorem foldl_pymax_eq_max (l : List ℚ) (a : ℚ) : l.foldl pymax a = l.foldl max a := by
  induction l generalizing a with
  | nil => rfl
  | cons y l ih => rw [List.foldl_cons, List.foldl_cons, pymax_eq, ih]

theorem foldl_min_le_init (l : List ℚ) (a : ℚ) : l.foldl min a ≤ a := by
  induction l generalizing a with
  | nil => exact le_refl a
  | cons y l ih => exact le_trans (ih (min a y)) (min_le_left a y)

theorem foldl_min_le_mem (l : List ℚ) : ∀ (a : ℚ) {y : ℚ}, y ∈ l →
    l.foldl min a ≤ y := by
  induction l with
  | nil => intro a y hy; exact absurd hy (List.not_mem_nil y)
  | cons z l ih =>
    intro a y hy
    rcases List.mem_cons.1 hy with rfl | hy'
    · exact le_trans (foldl_min_le_init l (min a y)) (min_le_right a y)
    · exact ih (min a z) hy'

theorem foldl_min_of_forall_le (l : List ℚ) (a : ℚ) (h : ∀ y ∈ l, a ≤ y) :
    l.foldl min a = a := by
  induction l with
  | nil => rfl
  | cons y l ih =>
    rw [List.foldl_cons, min_eq_left (h y (List.mem_cons_self y l))]
    exact ih fun z hz => h z (List.mem_cons_of_mem _ hz)

theorem foldl_min_isLeast (l : List ℚ) : ∀ (a : ℚ), (∃ y ∈ l, y ≤ a) →
    isLeastL l (l.foldl min a) := by
  induction l with
  | nil =>
    intro a h
    obtain ⟨y, hy, _⟩ := h
    exact absurd hy (List.not_mem_nil y)
  | cons y l ih =>
    intro a h
    rw [List.foldl_cons]
    by_cases hex : ∃ z ∈ l, z ≤ min a y
    · obtain ⟨hmem, hlb⟩ := ih (min a y) hex
      refine ⟨List.mem_cons_of_mem _ hmem, ?_⟩
      intro w hw
      rcases List.mem_cons.1 hw with rfl | hw'
      · exact le_trans (foldl_min_le_init l (min a w)) (min_le_right a w)
      · exact hlb w hw'
    · push_neg at hex
      have hfold : l.foldl min (min a y) = min a y :=
        foldl_min_of_forall_le l (min a y) fun z hz => le_of_lt (hex z hz)
      rw [hfold]
      have hmy : min a y = y := by
        obtain ⟨w, hw, hwa⟩ := h
        rcases List.mem_cons.1 hw with rfl | hw'
        · exact min_eq_right hwa
        · rcases min_choice a y with hc | hc
          · exact absurd (lt_of_lt_of_le (hc ▸ hex w hw') hwa) (lt_irrefl a)
          · exact hc
      rw [hmy]
      refine ⟨List.mem_cons_self y l, ?_⟩
      intro w hw
      rcases List.mem_cons.1 hw with rfl | hw'
      · exact le_refl w
      · exact le_of_lt (hmy ▸ hex w hw')

theorem foldl_max_init_le (l : List ℚ) (a : ℚ) : a ≤ l.foldl max a := by
  induction l generalizing a with
  | nil => exact le_refl a
  | cons y l ih => exact le_trans (le_max_left a y) (ih (max a y))

theorem foldl_max_mem_le (l : List ℚ) : ∀ (a : ℚ) {y : ℚ}, y ∈ l →
    y ≤ l.foldl max a := by
  induction l with
  | nil => intro a y hy; exact absurd hy (List.not_mem_nil y)
  | cons z l ih =>
    intro a y hy
    rcases List.mem_cons.1 hy with rfl | hy'
    · exact le_trans (le_max_right a y) (foldl_max_init_le l (max a y))
    · exact ih (max a z) hy'

theorem foldl_max_of_forall_le (l : List ℚ) (a : ℚ) (h : ∀ y ∈ l, y ≤ a) :
    l.foldl max a = a := by
  induction l with
  | nil => rfl
  | cons y l ih =>
    rw [List.foldl_cons, max_eq_left (h y (List.mem_cons_self y l))]
    exact ih fun z hz => h z (List.mem_cons_of_mem _ hz)

theorem foldl_max_isGreatest (l : List ℚ) : ∀ (a : ℚ), (∃ y ∈ l, a ≤ y) →
    isGreatestL l (l.foldl max a) := by
  induction l with
  | nil =>
    intro a h
    obtain ⟨y, hy, _⟩ := h
    exact absurd hy (List.not_mem_nil y)
  | cons y l ih =>
    intro a h
    rw [List.foldl_cons]
    by_cases hex : ∃ z ∈ l, max a y ≤ z
    · obtain ⟨hmem, hub⟩ := ih (max a y) hex
      refine ⟨List.mem_cons_of_mem _ hmem, ?_⟩
      intro w hw
      rcases List.mem_cons.1 hw with rfl | hw'
      · exact le_trans (le_max_right a w) (foldl_max_init_le l (max a w))
      · exact hub w hw'
    · push_neg at hex
      have hfold : l.foldl max (max a y) = max a y :=
        foldl_max_of_forall_le l (max a y) fun z hz => le_of_lt (hex z hz)
      rw [hfold]
      have hmy : max a y = y := by
        obtain ⟨w, hw, hwa⟩ := h
        rcases List.mem_cons.1 hw with rfl | hw'
        · exact max_eq_right hwa
        · rcases max_choice a y with hc | hc
          · exact absurd (lt_of_le_of_lt hwa (hc ▸ hex w hw')) (lt_irrefl a)
          · exact hc
      rw [hmy]
      refine ⟨List.mem_cons_self y l, ?_⟩
      intro w hw
      rcases List.mem_cons.1 hw with rfl | hw'
      · exact le_refl w
      · exact le_of_lt (hmy ▸ hex w hw')

theorem isLeastL_unique {l : List ℚ} {v v' : ℚ} (h : isLeastL l v)
    (h' : isLeastL l v') : v = v' :=
  le_antisymm (h.2 v' h'.1) (h'.2 v h.1)

theorem isGreatestL_unique {l : List ℚ} {v v' : ℚ} (h : isGreatestL l v)
    (h' : isGreatestL l v') : v = v' :=
  le_antisymm (h'.2 v h.1) (h.2 v' h'.1)

theorem isLeastL_shift {l : List ℚ} {v : ℚ} (t : ℚ) (h : isLeastL l v) :
    isLeastL (l.map fun x => x - t) (v - t) := by
  refine ⟨List.mem_map_of_mem _ h.1, ?_⟩
  intro y hy
  rcases List.mem_map.1 hy with ⟨x, hx, rfl⟩
  exact sub_le_sub_right (h.2 x hx) t

theorem isGreatestL_shift {l : List ℚ} {v : ℚ} (t : ℚ) (h : isGreatestL l v) :
    isGreatestL (l.map fun x => x - t) (v - t) := by
  refine ⟨List.mem_map_of_mem _ h.1, ?_⟩
  intro y hy
  rcases List.mem_map.1 hy with ⟨x, hx, rfl⟩
  exact sub_le_sub_right (h.2 x hx) t

theorem spanFold_eq : ∀ (ps : List (List ℚ)) (sx sy sz : ℚ × ℚ),
    (∀ p ∈ ps, 3 ≤ p.length) →
    spanFold ps sx sy sz = some (
      ((ps.map fun p => p.getD 0 0).foldl pymin sx.1,
        (ps.map fun p => p.getD 0 0).foldl pymax sx.2),
      ((ps.map fun p => p.getD 1 0).foldl pymin sy.1,
        (ps.map fun p => p.getD 1 0).foldl pymax sy.2),
      ((ps.map fun p => p.getD 2 0).foldl pymin sz.1,
        (ps.map fun p => p.getD 2 0).foldl pymax sz.2)) := by
  intro ps
  induction ps with
  | nil => intro sx sy sz _; simp [spanFold]
  | cons p rest ih =>
    intro sx sy sz h
    rw [spanFold, get3_of_len (h p (List.mem_cons_self p rest))]
    simp only [List.map_cons, List.foldl_cons]
    exact ih _ _ _ fun q hq => h q (List.mem_cons_of_mem _ hq)

theorem axis_package (xs : List ℚ) :
    ((∃ x ∈ xs, x ≤ 1000000) → isLeastL xs (xs.foldl pymin 1000000)) ∧
    ((∃ x ∈ xs, -1000000 ≤ x) → isGreatestL xs (xs.foldl pymax (-1000000))) ∧
    ((∀ x ∈ xs, 1000000 < x) →
      xs.foldl pymin 1000000 = 1000000 ∧ xs.foldl pymin 1000000 ∉ xs) ∧
    ((∀ x ∈ xs, x < -1000000) →
      xs.foldl pymax (-1000000) = -1000000 ∧ xs.foldl pymax (-1000000) ∉ xs) := by
  refine ⟨?_, ?_, ?_, ?_⟩
  · intro hex
    rw [foldl_pymin_eq_min]
    exact foldl_min_isLeast xs 1000000 hex
  · intro hex
    rw [foldl_pymax_eq_max]
    exact foldl_max_isGreatest xs (-1000000) hex
  · intro hall
    have heq : xs.foldl pymin 1000000 = 1000000 := by
      rw [foldl_pymin_eq_min]
      exact foldl_min_of_forall_le xs 1000000 fun y hy => le_of_lt (hall y hy)
    refine ⟨heq, ?_⟩
    rw [heq]
    intro hmem
    exact lt_irrefl (1000000 : ℚ) (hall _ hmem)
  · intro hall
    have heq : xs.foldl pymax (-1000000) = -1000000 := by
      rw [foldl_pymax_eq_max]
      exact foldl_max_of_forall_le xs (-1000000) fun y hy => le_of_lt (hall y hy)
    refine ⟨heq, ?_⟩
    rw [heq]
    intro hmem
    exact lt_irrefl (-1000000 : ℚ) (hall _ hmem)

/-- C10: the extrema pass of `align` (`spanFold` seeded with the
`spanInit = (1000000, -1000000)` sentinels, lines 145-156) computes the
true per-axis minimum (resp. maximum) only under the precondition that some
coordinate on that axis is at most 1000000 (resp. at least -1000000); when
every coordinate on an axis exceeds 1000000 (resp. lies below -1000000)
the reported extremum is clamped to the sentinel itself and is not the
coordinate of any vertex, so the anchor `align` subtracts is built from a
wrong extremum. -/
theorem C10_sentinel_extrema (ps : List (List ℚ)) (h3 : ∀ p ∈ ps, 3 ≤ p.length)
    (sp : (ℚ × ℚ) × (ℚ × ℚ) × (ℚ × ℚ))
    (hsp : spanFold ps spanInit spanInit spanInit = some sp) :
    (((∃ x ∈ axisCoords ps 0, x ≤ 1000000) → isLeastL (axisCoords ps 0) sp.1.1) ∧
      ((∃ x ∈ axisCoords ps 0, -1000000 ≤ x) → isGreatestL (axisCoords ps 0) sp.1.2) ∧
      ((∀ x ∈ axisCoords ps 0, 1000000 < x) →
        sp.1.1 = 1000000 ∧ sp.1.1 ∉ axisCoords ps 0) ∧
      ((∀ x ∈ axisCoords ps 0, x < -1000000) →
        sp.1.2 = -1000000 ∧ sp.1.2 ∉ axisCoords ps 0)) ∧
    (((∃ y ∈ axisCoords ps 1, y ≤ 1000000) → isLeastL (axisCoords ps 1) sp.2.1.1) ∧
      ((∃ y ∈ axisCoords ps 1, -1000000 ≤ y) → isGreatestL (axisCoords ps 1) sp.2.1.2) ∧
      ((∀ y ∈ axisCoords ps 1, 1000000 < y) →
        sp.2.1.1 = 1000000 ∧ sp.2.1.1 ∉ axisCoords ps 1) ∧
      ((∀ y ∈ axisCoords ps 1, y < -1000000) →
        sp.2.1.2 = -1000000 ∧ sp.2.1.2 ∉ axisCoords ps 1)) ∧
    (((∃ z ∈ axisCoords ps 2, z ≤ 1000000) → isLeastL (axisCoords ps 2) sp.2.2.1) ∧
      ((∃ z ∈ axisCoords ps 2, -1000000 ≤ z) → isGreatestL (axisCoords ps 2) sp.2.2.2) ∧
      ((∀ z ∈ axisCoords ps 2, 1000000 < z) →
        sp.2.2.1 = 1000000 ∧ sp.2.2.1 ∉ axisCoords ps 2) ∧
      ((∀ z ∈ axisCoords ps 2, z < -1000000) →
        sp.2.2.2 = -1000000 ∧ sp.2.2.2 ∉ axisCoords ps 2)) := by
  rw [spanFold_eq ps spanInit spanInit spanInit h3] at hsp
  have hsp' := Option.some.inj hsp
  subst hsp'
  simp only [spanInit, axisCoords]
  exact ⟨axis_package _, axis_package _, axis_package _⟩

/-- C10 witness: the far mesh's position list — every X coordinate exceeds
the sentinel, the X minimum is clamped to 1000000 and attained by no
vertex, while the in-range Y and Z extrema are genuine. -/
theorem C10_sentinel_extrema_witness :
    ((∀ p ∈ [[(2000000 : ℚ), 0, 0]], 3 ≤ p.length) ∧
      spanFold [[(2000000 : ℚ), 0, 0]] spanInit spanInit spanInit =
        some ((1000000, 2000000), (0, 0), (0, 0))) ∧
    (((∃ x ∈ axisCoords [[(2000000 : ℚ), 0, 0]] 0, x ≤ 1000000) →
        isLeastL (axisCoords [[(2000000 : ℚ), 0, 0]] 0)
          (((1000000 : ℚ), (2000000 : ℚ)), ((0 : ℚ), (0 : ℚ)), ((0 : ℚ), (0 : ℚ))).1.1) ∧
      ((∃ x ∈ axisCoords [[(2000000 : ℚ), 0, 0]] 0, -1000000 ≤ x) →
        isGreatestL (axisCoords [[(2000000 : ℚ), 0, 0]] 0)
          (((1000000 : ℚ), (2000000 : ℚ)), ((0 : ℚ), (0 : ℚ)), ((0 : ℚ), (0 : ℚ))).1.2) ∧
      ((∀ x ∈ axisCoords [[(2000000 : ℚ), 0, 0]] 0, 1000000 < x) →
        (((1000000 : ℚ), (2000000 : ℚ)), ((0 : ℚ), (0 : ℚ)), ((0 : ℚ), (0 : ℚ))).1.1 = 1000000 ∧
          (((1000000 : ℚ), (2000000 : ℚ)), ((0 : ℚ), (0 : ℚ)), ((0 : ℚ), (0 : ℚ))).1.1 ∉
            axisCoords [[(2000000 : ℚ), 0, 0]] 0) ∧
      ((∀ x ∈ axisCoords [[(2000000 : ℚ), 0, 0]] 0, x < -1000000) →
        (((1000000 : ℚ), (2000000 : ℚ)), ((0 : ℚ), (0 : ℚ)), ((0 : ℚ), (0 : ℚ))).1.2 = -1000000 ∧
          (((1000000 : ℚ), (2000000 : ℚ)), ((0 : ℚ), (0 : ℚ)), ((0 : ℚ), (0 : ℚ))).1.2 ∉
            axisCoords [[(2000000 : ℚ), 0, 0]] 0)) ∧
    (((∃ y ∈ axisCoords [[(2000000 : ℚ), 0, 0]] 1, y ≤ 1000000) →
        isLeastL (axisCoords [[(2000000 : ℚ), 0, 0]] 1)
          (((1000000 : ℚ), (2000000 : ℚ)), ((0 : ℚ), (0 : ℚ)), ((0 : ℚ), (0 : ℚ))).2.1.1) ∧
      ((∃ y ∈ axisCoords [[(2000000 : ℚ), 0, 0]] 1, -1000000 ≤ y) →
        isGreatestL (axisCoords [[(2000000 : ℚ), 0, 0]] 1)
          (((1000000 : ℚ), (2000000 : ℚ)), ((0 : ℚ), (0 : ℚ)), ((0 : ℚ), (0 : ℚ))).2.1.2) ∧
      ((∀ y ∈ axisCoords [[(2000000 : ℚ), 0, 0]] 1, 1000000 < y) →
        (((1000000 : ℚ), (2000000 : ℚ)), ((0 : ℚ), (0 : ℚ)), ((0 : ℚ), (0 : ℚ))).2.1.1 = 1000000 ∧
          (((1000000 : ℚ), (2000000 : ℚ)), ((0 : ℚ), (0 : ℚ)), ((0 : ℚ), (0 : ℚ))).2.1.1 ∉
            axisCoords [[(2000000 : ℚ), 0, 0]] 1) ∧
      ((∀ y ∈ axisCoords [[(2000000 : ℚ), 0, 0]] 1, y < -1000000) →
        (((1000000 : ℚ), (2000000 : ℚ)), ((0 : ℚ), (0 : ℚ)), ((0 : ℚ), (0 : ℚ))).2.1.2 = -1000000 ∧
          (((1000000 : ℚ), (2000000 : ℚ)), ((0 : ℚ), (0 : ℚ)), ((0 : ℚ), (0 : ℚ))).2.1.2 ∉
            axisCoords [[(2000000 : ℚ), 0, 0]] 1)) ∧
    (((∃ z ∈ axisCoords [[(2000000 : ℚ), 0, 0]] 2, z ≤ 1000000) →
        isLeastL (axisCoords [[(2000000 : ℚ), 0, 0]] 2)
          (((1000000 : ℚ), (2000000 : ℚ)), ((0 : ℚ), (0 : ℚ)), ((0 : ℚ), (0 : ℚ))).2.2.1) ∧
      ((∃ z ∈ axisCoords [[(2000000 : ℚ), 0, 0]] 2, -1000000 ≤ z) →
        isGreatestL (axisCoords [[(2000000 : ℚ), 0, 0]] 2)
          (((1000000 : ℚ), (2000000 : ℚ)), ((0 : ℚ), (0 : ℚ)), ((0 : ℚ), (0 : ℚ))).2.2.2) ∧
      ((∀ z ∈ axisCoords [[(2000000 : ℚ), 0, 0]] 2, 1000000 < z) →
        (((1000000 : ℚ), (2000000 : ℚ)), ((0 : ℚ), (0 : ℚ)), ((0 : ℚ), (0 : ℚ))).2.2.1 = 1000000 ∧
          (((1000000 : ℚ), (2000000 : ℚ)), ((0 : ℚ), (0 : ℚ)), ((0 : ℚ), (0 : ℚ))).2.2.1 ∉
            axisCoords [[(2000000 : ℚ), 0, 0]] 2) ∧
      ((∀ z ∈ axisCoords [[(2000000 : ℚ), 0, 0]] 2, z < -1000000) →
        (((1000000 : ℚ), (2000000 : ℚ)), ((0 : ℚ), (0 : ℚ)), ((0 : ℚ), (0 : ℚ))).2.2.2 = -1000000 ∧
          (((1000000 : ℚ), (2000000 : ℚ)), ((0 : ℚ), (0 : ℚ)), ((0 : ℚ), (0 : ℚ))).2.2.2 ∉
            axisCoords [[(2000000 : ℚ), 0, 0]] 2)) :=
  ⟨⟨by decide, by decide!⟩,
    C10_sentinel_extrema [[(2000000 : ℚ), 0, 0]] (by decide) _ (by decide!)⟩

/-! ### Alignment characterization -/

theorem getV_eq_getElem {st : List VertexObject} {i : ℕ} (h : i < st.length) :
    getV st i = st[i] := by
  rw [getV, List.getD_eq_getElem?_getD, List.getElem?_eq_getElem h]
  rfl

theorem getV_mem {st : List VertexObject} {i : ℕ} (h : i < st.length) :
    getV st i ∈ st := by
  rw [getV_eq_getElem h]
  exact List.getElem_mem h

theorem fdRec_ne_nil {w : List ℕ} (h : w ≠ []) : fdRec w ≠ [] := by
  cases w with
  | nil => exact absurd rfl h
  | cons i w' =>
    rw [fdRec_cons]
    exact List.cons_ne_nil _ _

theorem align_of_parts (m m1 : MeshObject) (l : List ℕ) (x0 x1 y0 y1 z0 z1 : ℚ)
    (hgu : getUniqueVertices m = some (m1, l))
    (hsp : spanFold (l.map fun i => (getV m1.store i).position)
      spanInit spanInit spanInit = some ((x0, x1), (y0, y1), (z0, z1))) :
    align m = some
      ({ m1 with store := alignApply ((x0 + z0) / 2, y0, (x1 + z1) / 2) m1.store l },
        ((x0 + z0) / 2, y0, (x1 + z1) / 2)) := by
  rw [align, hgu]
  simp only [hsp]

/-- The shared backbone of the alignment claims: on a resolved, valid,
3-dimensional mesh whose referenced vertices admit per-axis witnesses
within the sentinel range, `align` subtracts exactly the anchor
`((minX+minZ)/2, minY, (maxX+maxZ)/2)` built from the true extrema of the
deduplicated coordinates, rebuilding each referenced position as a
3-tuple and leaving normals, texcoords and unreferenced vertices
untouched. -/
theorem align_char (m : MeshObject) (hres : slotsResolved m) (hval : slotsValid m)
    (h3 : ∀ v ∈ m.store, 3 ≤ v.position.length)
    (hx1 : ∃ x ∈ coordsAt m.store (fdRec (slotIds m)) 0, x ≤ 1000000)
    (hx2 : ∃ x ∈ coordsAt m.store (fdRec (slotIds m)) 0, -1000000 ≤ x)
    (hy1 : ∃ y ∈ coordsAt m.store (fdRec (slotIds m)) 1, y ≤ 1000000)
    (hz1 : ∃ z ∈ coordsAt m.store (fdRec (slotIds m)) 2, z ≤ 1000000)
    (hz2 : ∃ z ∈ coordsAt m.store (fdRec (slotIds m)) 2, -1000000 ≤ z) :
    ∃ m' mnx mxx mny mnz mxz,
      isLeastL (coordsAt m.store (fdRec (slotIds m)) 0) mnx ∧
      isGreatestL (coordsAt m.store (fdRec (slotIds m)) 0) mxx ∧
      isLeastL (coordsAt m.store (fdRec (slotIds m)) 1) mny ∧
      isLeastL (coordsAt m.store (fdRec (slotIds m)) 2) mnz ∧
      isGreatestL (coordsAt m.store (fdRec (slotIds m)) 2) mxz ∧
      align m = some (m', ((mnx + mnz) / 2, mny, (mxx + mxz) / 2)) ∧
      m'.triangles = m.triangles ∧
      m'.store.length = m.store.length ∧
      (∀ i ∈ fdRec (slotIds m),
        (getV m'.store i).position =
          [(getV m.store i).position.getD 0 0 - (mnx + mnz) / 2,
            (getV m.store i).position.getD 1 0 - mny,
            (getV m.store i).position.getD 2 0 - (mxx + mxz) / 2] ∧
        (getV m'.store i).normal = (getV m.store i).normal ∧
        (getV m'.store i).texcoord = (getV m.store i).texcoord ∧
        (getV m'.store i).index = (getV (assignIndices m.store 0 (fdRec (slotIds m))) i).index) ∧
      (∀ i, i ∉ fdRec (slotIds m) → getV m'.store i = getV m.store i) := by
  classical
  have hnd : (fdRec (slotIds m)).Nodup := fdRec_nodup _
  have hvalid : ∀ i ∈ fdRec (slotIds m), i < m.store.length :=
    fun i hi => slotIds_lt_store hval (mem_fdRec.1 hi)
  have hfields := fun i => assignIndices_fields (fdRec (slotIds m)) hnd m.store 0 i
  have hps : ((fdRec (slotIds m)).map fun i =>
      (getV (assignIndices m.store 0 (fdRec (slotIds m))) i).position) =
      (fdRec (slotIds m)).map fun i => (getV m.store i).position := by
    apply List.map_congr_left
    intro i _
    exact (hfields i).1
  have h3' : ∀ p ∈ (fdRec (slotIds m)).map fun i => (getV m.store i).position,
      3 ≤ p.length := by
    intro p hp
    rcases List.mem_map.1 hp with ⟨i, hi, rfl⟩
    exact h3 _ (getV_mem (hvalid i hi))
  have hax : ∀ k, (((fdRec (slotIds m)).map fun i => (getV m.store i).position).map
      fun p => p.getD k 0) = coordsAt m.store (fdRec (slotIds m)) k := by
    intro k
    rw [List.map_map]
    rfl
  have hspan : spanFold ((fdRec (slotIds m)).map fun i =>
        (getV (assignIndices m.store 0 (fdRec (slotIds m))) i).position)
        spanInit spanInit spanInit =
      some (((coordsAt m.store (fdRec (slotIds m)) 0).foldl pymin 1000000,
          (coordsAt m.store (fdRec (slotIds m)) 0).foldl pymax (-1000000)),
        ((coordsAt m.store (fdRec (slotIds m)) 1).foldl pymin 1000000,
          (coordsAt m.store (fdRec (slotIds m)) 1).foldl pymax (-1000000)),
        ((coordsAt m.store (fdRec (slotIds m)) 2).foldl pymin 1000000,
          (coordsAt m.store (fdRec (slotIds m)) 2).foldl pymax (-1000000))) := by
    rw [hps, spanFold_eq _ _ _ _ h3', hax 0, hax 1, hax 2]
    rfl
  have e1 := getUnique_of_resolved hres
  have halign := align_of_parts m _ _ _ _ _ _ _ _ e1 hspan
  have hLx : isLeastL (coordsAt m.store (fdRec (slotIds m)) 0)
      ((coordsAt m.store (fdRec (slotIds m)) 0).foldl pymin 1000000) := by
    rw [foldl_pymin_eq_min]
    exact foldl_min_isLeast _ 1000000 hx1
  have hGx : isGreatestL (coordsAt m.store (fdRec (slotIds m)) 0)
      ((coordsAt m.store (fdRec (slotIds m)) 0).foldl pymax (-1000000)) := by
    rw [foldl_pymax_eq_max]
    exact foldl_max_isGreatest _ (-1000000) hx2
  have hLy : isLeastL (coordsAt m.store (fdRec (slotIds m)) 1)
      ((coordsAt m.store (fdRec (slotIds m)) 1).foldl pymin 1000000) := by
    rw [foldl_pymin_eq_min]
    exact foldl_min_isLeast _ 1000000 hy1
  have hLz : isLeastL (coordsAt m.store (fdRec (slotIds m)) 2)
      ((coordsAt m.store (fdRec (slotIds m)) 2).foldl pymin 1000000) := by
    rw [foldl_pymin_eq_min]
    exact foldl_min_isLeast _ 1000000 hz1
  have hGz : isGreatestL (coordsAt m.store (fdRec (slotIds m)) 2)
      ((coordsAt m.store (fdRec (slotIds m)) 2).foldl pymax (-1000000)) := by
    rw [foldl_pymax_eq_max]
    exact foldl_max_isGreatest _ (-1000000) hz2
  refine ⟨_, (coordsAt m.store (fdRec (slotIds m)) 0).foldl pymin 1000000,
    (coordsAt m.store (fdRec (slotIds m)) 0).foldl pymax (-1000000),
    (coordsAt m.store (fdRec (slotIds m)) 1).foldl pymin 1000000,
    (coordsAt m.store (fdRec (slotIds m)) 2).foldl pymin 1000000,
    (coordsAt m.store (fdRec (slotIds m)) 2).foldl pymax (-1000000),
    hLx, hGx, hLy, hLz, hGz, halign, ?_, ?_, ?_, ?_⟩
  · rfl
  · rw [alignApply_length, assignIndices_length]
  · intro i hi
    have hilt : i < m.store.length := hvalid i hi
    have hset : ∀ (a : ℚ × ℚ × ℚ),
        getV (alignApply a (assignIndices m.store 0 (fdRec (slotIds m))) (fdRec (slotIds m))) i =
          shiftV a (getV (assignIndices m.store 0 (fdRec (slotIds m))) i) := by
      intro a
      rw [getV_alignApply _ hnd]
      rw [if_pos ⟨hi, by rw [assignIndices_length]; exact hilt⟩]
    refine ⟨?_, ?_, ?_, ?_⟩
    · show (getV _ i).position = _
      rw [hset]
      show [_, _, _] = _
      rw [(hfields i).1]
    · show (getV _ i).normal = _
      rw [hset]
      show (getV (assignIndices m.store 0 (fdRec (slotIds m))) i).normal = _
      exact (hfields i).2.1
    · show (getV _ i).texcoord = _
      rw [hset]
      exact (hfields i).2.2
    · show (getV _ i).index = _
      rw [hset]
      rfl
  · intro i hi
    show getV (alignApply _ _ _) i = _
    rw [getV_alignApply _ hnd, if_neg (fun hc => hi hc.1),
      getV_assignIndices _ hnd, if_neg (fun hc => hi hc.1)]

theorem getD_mem_of_lt {p : List ℚ} {k : ℕ} (h : k < p.length) : p.getD k 0 ∈ p := by
  rw [List.getD_eq_getElem?_getD, List.getElem?_eq_getElem h]
  exact List.getElem_mem h

theorem vertexExt {v w : VertexObject} (hp : v.position = w.position)
    (hn : v.normal = w.normal) (ht : v.texcoord = w.texcoord)
    (hi : v.index = w.index) : v = w := by
  cases v
  cases w
  simp only at hp hn ht hi
  simp [hp, hn, ht, hi]

theorem meshExt {m m' : MeshObject} (hs : m.store = m'.store)
    (ht : m.triangles = m'.triangles) : m = m' := by
  cases m
  cases m'
  simp only at hs ht
  simp [hs, ht]

theorem storeExt {st st' : List VertexObject} (hl : st.length = st'.length)
    (h : ∀ j, getV st j = getV st' j) : st = st' := by
  apply List.ext_getElem hl
  intro j h1 h2
  have := h j
  rwa [getV_eq_getElem h1, getV_eq_getElem h2] at this

theorem coords_bounded (m : MeshObject) (hval : slotsValid m)
    (h3 : ∀ v ∈ m.store, 3 ≤ v.position.length) (hrange : coordsInRange m)
    {k : ℕ} (hk : k < 3) :
    ∀ x ∈ coordsAt m.store (fdRec (slotIds m)) k, -1000000 ≤ x ∧ x ≤ 1000000 := by
  intro x hx
  rcases List.mem_map.1 hx with ⟨i, hi, rfl⟩
  have hilt : i < m.store.length := slotIds_lt_store hval (mem_fdRec.1 hi)
  have hvm : getV m.store i ∈ m.store := getV_mem hilt
  have hklen : k < (getV m.store i).position.length := lt_of_lt_of_le hk (h3 _ hvm)
  exact hrange _ hvm _ (getD_mem_of_lt hklen)

theorem coords_ne_nil (m : MeshObject) (hne : slotIds m ≠ []) (k : ℕ) :
    coordsAt m.store (fdRec (slotIds m)) k ≠ [] := by
  rw [coordsAt]
  intro hc
  exact fdRec_ne_nil hne (List.map_eq_nil_iff.1 hc)

/-- `align_char` with its per-axis witnesses derived from the sentinel
range precondition. -/
theorem align_char_range (m : MeshObject) (hres : slotsResolved m)
    (hval : slotsValid m) (h3 : ∀ v ∈ m.store, 3 ≤ v.position.length)
    (hrange : coordsInRange m) (hne : slotIds m ≠ []) :
    ∃ m' mnx mxx mny mnz mxz,
      isLeastL (coordsAt m.store (fdRec (slotIds m)) 0) mnx ∧
      isGreatestL (coordsAt m.store (fdRec (slotIds m)) 0) mxx ∧
      isLeastL (coordsAt m.store (fdRec (slotIds m)) 1) mny ∧
      isLeastL (coordsAt m.store (fdRec (slotIds m)) 2) mnz ∧
      isGreatestL (coordsAt m.store (fdRec (slotIds m)) 2) mxz ∧
      align m = some (m', ((mnx + mnz) / 2, mny, (mxx + mxz) / 2)) ∧
      m'.triangles = m.triangles ∧
      m'.store.length = m.store.length ∧
      (∀ i ∈ fdRec (slotIds m),
        (getV m'.store i).position =
          [(getV m.store i).position.getD 0 0 - (mnx + mnz) / 2,
            (getV m.store i).position.getD 1 0 - mny,
            (getV m.store i).position.getD 2 0 - (mxx + mxz) / 2] ∧
        (getV m'.store i).normal = (getV m.store i).normal ∧
        (getV m'.store i).texcoord = (getV m.store i).texcoord ∧
        (getV m'.store i).index = (getV (assignIndices m.store 0 (fdRec (slotIds m))) i).index) ∧
      (∀ i, i ∉ fdRec (slotIds m) → getV m'.store i = getV m.store i) := by
  obtain ⟨x0, hx0⟩ := List.exists_mem_of_ne_nil _ (coords_ne_nil m hne 0)
  obtain ⟨y0, hy0⟩ := List.exists_mem_of_ne_nil _ (coords_ne_nil m hne 1)
  obtain ⟨z0, hz0⟩ := List.exists_mem_of_ne_nil _ (coords_ne_nil m hne 2)
  exact align_char m hres hval h3
    ⟨x0, hx0, (coords_bounded m hval h3 hrange (by omega) x0 hx0).2⟩
    ⟨x0, hx0, (coords_bounded m hval h3 hrange (by omega) x0 hx0).1⟩
    ⟨y0, hy0, (coords_bounded m hval h3 hrange (by omega) y0 hy0).2⟩
    ⟨z0, hz0, (coords_bounded m hval h3 hrange (by omega) z0 hz0).2⟩
    ⟨z0, hz0, (coords_bounded m hval h3 hrange (by omega) z0 hz0).1⟩

/-- C4 (amended with the sentinel-range precondition, forced by the C4
counterexample): on a resolved, valid, 3-dimensional mesh with at least one
referenced vertex whose coordinates all lie within `[-1000000, 1000000]`,
`align` computes the true axis-aligned extrema of the deduplicated
vertices and subtracts the anchor `((minX+minZ)/2, minY, (maxX+maxZ)/2)`
from every referenced vertex position, leaving normals and texcoords (and
unreferenced vertices) unchanged. -/
theorem C4_align_subtracts_extrema_anchor (m : MeshObject) (hres : slotsResolved m)
    (hval : slotsValid m) (h3 : ∀ v ∈ m.store, 3 ≤ v.position.length)
    (hrange : coordsInRange m) (hne : slotIds m ≠ []) :
    ∃ m' mnx mxx mny mnz mxz,
      isLeastL (coordsAt m.store (fdRec (slotIds m)) 0) mnx ∧
      isGreatestL (coordsAt m.store (fdRec (slotIds m)) 0) mxx ∧
      isLeastL (coordsAt m.store (fdRec (slotIds m)) 1) mny ∧
      isLeastL (coordsAt m.store (fdRec (slotIds m)) 2) mnz ∧
      isGreatestL (coordsAt m.store (fdRec (slotIds m)) 2) mxz ∧
      align m = some (m', ((mnx + mnz) / 2, mny, (mxx + mxz) / 2)) ∧
      m'.triangles = m.triangles ∧
      m'.store.length = m.store.length ∧
      (∀ i ∈ fdRec (slotIds m),
        (getV m'.store i).position =
          [(getV m.store i).position.getD 0 0 - (mnx + mnz) / 2,
            (getV m.store i).position.getD 1 0 - mny,
            (getV m.store i).position.getD 2 0 - (mxx + mxz) / 2] ∧
        (getV m'.store i).normal = (getV m.store i).normal ∧
        (getV m'.store i).texcoord = (getV m.store i).texcoord ∧
        (getV m'.store i).index = (getV (assignIndices m.store 0 (fdRec (slotIds m))) i).index) ∧
      (∀ i, i ∉ fdRec (slotIds m) → getV m'.store i = getV m.store i) :=
  align_char_range m hres hval h3 hrange hne

/-- C4 witness: the two-vertex mesh — extrema minX=0, maxX=1, minY=0,
minZ=0, maxZ=1, anchor (0, 0, 1). -/
theorem C4_align_subtracts_extrema_anchor_witness :
    (slotsResolved cexMesh2 ∧ slotsValid cexMesh2 ∧
      (∀ v ∈ cexMesh2.store, 3 ≤ v.position.length) ∧ coordsInRange cexMesh2 ∧
      slotIds cexMesh2 ≠ []) ∧
    (∃ m' mnx mxx mny mnz mxz,
      isLeastL (coordsAt cexMesh2.store (fdRec (slotIds cexMesh2)) 0) mnx ∧
      isGreatestL (coordsAt cexMesh2.store (fdRec (slotIds cexMesh2)) 0) mxx ∧
      isLeastL (coordsAt cexMesh2.store (fdRec (slotIds cexMesh2)) 1) mny ∧
      isLeastL (coordsAt cexMesh2.store (fdRec (slotIds cexMesh2)) 2) mnz ∧
      isGreatestL (coordsAt cexMesh2.store (fdRec (slotIds cexMesh2)) 2) mxz ∧
      align cexMesh2 = some (m', ((mnx + mnz) / 2, mny, (mxx + mxz) / 2)) ∧
      m'.triangles = cexMesh2.triangles ∧
      m'.store.length = cexMesh2.store.length ∧
      (∀ i ∈ fdRec (slotIds cexMesh2),
        (getV m'.store i).position =
          [(getV cexMesh2.store i).position.getD 0 0 - (mnx + mnz) / 2,
            (getV cexMesh2.store i).position.getD 1 0 - mny,
            (getV cexMesh2.store i).position.getD 2 0 - (mxx + mxz) / 2] ∧
        (getV m'.store i).normal = (getV cexMesh2.store i).normal ∧
        (getV m'.store i).texcoord = (getV cexMesh2.store i).texcoord ∧
        (getV m'.store i).index =
          (getV (assignIndices cexMesh2.store 0 (fdRec (slotIds cexMesh2))) i).index) ∧
      (∀ i, i ∉ fdRec (slotIds cexMesh2) → getV m'.store i = getV cexMesh2.store i)) :=
  ⟨⟨by unfold slotsResolved; decide, by unfold slotsValid; decide, by decide,
      by unfold coordsInRange; decide, by decide⟩,
    C4_align_subtracts_extrema_anchor cexMesh2 (by unfold slotsResolved; decide)
      (by unfold slotsValid; decide) (by decide) (by unfold coordsInRange; decide) (by decide)⟩

/-- C2 (corrected): `align` is not idempotent in general.  On a resolved,
valid, 3-dimensional in-range mesh with at least one referenced vertex, the
second `align` call subtracts the anchor `((ax-az)/2, 0, (az-ax)/2)` where
`(ax, ay, az)` is the first call's anchor; the second call leaves the mesh
unchanged — and its anchor is the zero vector — exactly in the special
case `ax = az` (that is, `minX + minZ = maxX + maxZ`). -/
theorem C2_align_twice_anchor (m : MeshObject) (hres : slotsResolved m)
    (hval : slotsValid m) (h3 : ∀ v ∈ m.store, 3 ≤ v.position.length)
    (hrange : coordsInRange m) (hne : slotIds m ≠ []) :
    ∃ m1 a1 m2 a2, align m = some (m1, a1) ∧ align m1 = some (m2, a2) ∧
      a2 = ((a1.1 - a1.2.2) / 2, 0, (a1.2.2 - a1.1) / 2) ∧
      (a1.1 = a1.2.2 → m2 = m1 ∧ a2 = (0, 0, 0)) := by
  classical
  obtain ⟨m1, mnx, mxx, mny, mnz, mxz, hLx, hGx, hLy, hLz, hGz, halign1, htri1, hlen1,
    hmem1, hnot1⟩ := align_char_range m hres hval h3 hrange hne
  have hbx := @coords_bounded m hval h3 hrange 0 (by omega)
  have hby := @coords_bounded m hval h3 hrange 1 (by omega)
  have hbz := @coords_bounded m hval h3 hrange 2 (by omega)
  obtain ⟨hmnx1, hmnx2⟩ := hbx _ hLx.1
  obtain ⟨hmxx1, hmxx2⟩ := hbx _ hGx.1
  obtain ⟨hmny1, hmny2⟩ := hby _ hLy.1
  obtain ⟨hmnz1, hmnz2⟩ := hbz _ hLz.1
  obtain ⟨hmxz1, hmxz2⟩ := hbz _ hGz.1
  have hmmz : mnz ≤ mxz := hLz.2 _ hGz.1
  have hmmx : mnx ≤ mxx := hLx.2 _ hGx.1
  have hsl : slotIds m1 = slotIds m := by rw [slotIds, slotIds, htri1]
  have hres1 : slotsResolved m1 := fun t ht => hres t (htri1 ▸ ht)
  have hval1 : slotsValid m1 := by
    intro t ht s hs
    have hgoal := hval t (htri1 ▸ ht) s hs
    show slotValid m1.store.length s
    rw [hlen1]
    exact hgoal
  have h31 : ∀ v ∈ m1.store, 3 ≤ v.position.length := by
    intro v hv
    rcases List.mem_iff_getElem.1 hv with ⟨j, hj, rfl⟩
    rw [← getV_eq_getElem hj]
    by_cases hjl : j ∈ fdRec (slotIds m)
    · rw [(hmem1 j hjl).1]
      simp
    · rw [hnot1 j hjl]
      exact h3 _ (getV_mem (hlen1 ▸ hj))
  have hco0 : coordsAt m1.store (fdRec (slotIds m1)) 0 =
      (coordsAt m.store (fdRec (slotIds m)) 0).map (fun x => x - (mnx + mnz) / 2) := by
    rw [hsl, coordsAt, coordsAt, List.map_map]
    apply List.map_congr_left
    intro i hi
    rw [Function.comp_apply, (hmem1 i hi).1]
    simp
  have hco1 : coordsAt m1.store (fdRec (slotIds m1)) 1 =
      (coordsAt m.store (fdRec (slotIds m)) 1).map (fun x => x - mny) := by
    rw [hsl, coordsAt, coordsAt, List.map_map]
    apply List.map_congr_left
    intro i hi
    rw [Function.comp_apply, (hmem1 i hi).1]
    simp
  have hco2 : coordsAt m1.store (fdRec (slotIds m1)) 2 =
      (coordsAt m.store (fdRec (slotIds m)) 2).map (fun x => x - (mxx + mxz) / 2) := by
    rw [hsl, coordsAt, coordsAt, List.map_map]
    apply List.map_congr_left
    intro i hi
    rw [Function.comp_apply, (hmem1 i hi).1]
    simp
  have hx1' : ∃ x ∈ coordsAt m1.store (fdRec (slotIds m1)) 0, x ≤ 1000000 := by
    rw [hco0]
    exact ⟨mnx - (mnx + mnz) / 2, List.mem_map_of_mem _ hLx.1, by linarith⟩
  have hx2' : ∃ x ∈ coordsAt m1.store (fdRec (slotIds m1)) 0, -1000000 ≤ x := by
    rw [hco0]
    exact ⟨mnx - (mnx + mnz) / 2, List.mem_map_of_mem _ hLx.1, by linarith⟩
  have hy1' : ∃ y ∈ coordsAt m1.store (fdRec (slotIds m1)) 1, y ≤ 1000000 := by
    rw [hco1]
    exact ⟨mny - mny, List.mem_map_of_mem _ hLy.1, by linarith⟩
  have hz1' : ∃ z ∈ coordsAt m1.store (fdRec (slotIds m1)) 2, z ≤ 1000000 := by
    rw [hco2]
    exact ⟨mnz - (mxx + mxz) / 2, List.mem_map_of_mem _ hLz.1, by linarith⟩
  have hz2' : ∃ z ∈ coordsAt m1.store (fdRec (slotIds m1)) 2, -1000000 ≤ z := by
    rw [hco2]
    exact ⟨mxz - (mxx + mxz) / 2, List.mem_map_of_mem _ hGz.1, by linarith⟩
  obtain ⟨m2, mnx', mxx', mny', mnz', mxz', hLx', hGx', hLy', hLz', hGz', halign2, htri2,
    hlen2, hmem2, hnot2⟩ := align_char m1 hres1 hval1 h31 hx1' hx2' hy1' hz1' hz2'
  rw [hco0] at hLx' hGx'
  rw [hco1] at hLy'
  rw [hco2] at hLz' hGz'
  have e_mnx : mnx' = mnx - (mnx + mnz) / 2 :=
    isLeastL_unique hLx' (isLeastL_shift _ hLx)
  have e_mxx : mxx' = mxx - (mnx + mnz) / 2 :=
    isGreatestL_unique hGx' (isGreatestL_shift _ hGx)
  have e_mny : mny' = mny - mny :=
    isLeastL_unique hLy' (isLeastL_shift _ hLy)
  have e_mnz : mnz' = mnz - (mxx + mxz) / 2 :=
    isLeastL_unique hLz' (isLeastL_shift _ hLz)
  have e_mxz : mxz' = mxz - (mxx + mxz) / 2 :=
    isGreatestL_unique hGz' (isGreatestL_shift _ hGz)
  refine ⟨m1, ((mnx + mnz) / 2, mny, (mxx + mxz) / 2), m2,
    ((mnx' + mnz') / 2, mny', (mxx' + mxz') / 2), halign1, halign2, ?_, ?_⟩
  · rw [e_mnx, e_mxx, e_mny, e_mnz, e_mxz]
    show (_, _, _) = (_, _, _)
    refine congrArg₂ Prod.mk (by ring) (congrArg₂ Prod.mk (by ring) (by ring))
  · intro hax
    have haz : (mnx + mnz) / 2 = (mxx + mxz) / 2 := hax
    have hz1 : (mnx' + mnz') / 2 = 0 := by
      rw [e_mnx, e_mnz]
      linarith
    have hz2 : mny' = 0 := by
      rw [e_mny]
      ring
    have hz3 : (mxx' + mxz') / 2 = 0 := by
      rw [e_mxx, e_mxz]
      linarith
    constructor
    · -- the second subtraction moves nothing
      apply meshExt _ htri2
      apply storeExt hlen2
      intro j
      by_cases hjl : j ∈ fdRec (slotIds m1)
      · obtain ⟨hp2, hn2, ht2, hi2⟩ := hmem2 j hjl
        have hjl0 : j ∈ fdRec (slotIds m) := hsl ▸ hjl
        obtain ⟨hp1, _, _, hi1⟩ := hmem1 j hjl0
        refine vertexExt ?_ hn2 ht2 ?_
        · rw [hp2, hz1, hz2, hz3, hp1]
          simp
        · -- index: both dedup passes assign the same 1-based index
          rw [hi2, hi1]
          have hnd : (fdRec (slotIds m)).Nodup := fdRec_nodup _
          have hjlt : j < m.store.length := slotIds_lt_store hval (mem_fdRec.1 hjl0)
          rw [getV_assignIndices _ hnd m.store 0 j, if_pos ⟨hjl0, hjlt⟩]
          have hnd1 : (fdRec (slotIds m1)).Nodup := fdRec_nodup _
          have hjlt1 : j < m1.store.length := hlen1 ▸ hjlt
          rw [getV_assignIndices _ hnd1 m1.store 0 j, if_pos ⟨hjl, hjlt1⟩]
          simp only [hsl]
      · exact hnot2 j hjl
    · show (_, _, _) = ((0 : ℚ), (0 : ℚ), (0 : ℚ))
      rw [hz1, hz2, hz3]

/-- C2 witness: a one-vertex mesh at the origin, for which the first
anchor has `ax = az = 0` and aligning twice equals aligning once. -/
theorem C2_align_twice_anchor_witness :
    (slotsResolved exMeshOrigin ∧ slotsValid exMeshOrigin ∧
      (∀ v ∈ exMeshOrigin.store, 3 ≤ v.position.length) ∧
      coordsInRange exMeshOrigin ∧ slotIds exMeshOrigin ≠ []) ∧
    (∃ m1 a1 m2 a2, align exMeshOrigin = some (m1, a1) ∧ align m1 = some (m2, a2) ∧
      a2 = ((a1.1 - a1.2.2) / 2, 0, (a1.2.2 - a1.1) / 2) ∧
      (a1.1 = a1.2.2 → m2 = m1 ∧ a2 = (0, 0, 0))) :=
  ⟨⟨by unfold slotsResolved; decide, by unfold slotsValid; decide, by decide,
      by unfold coordsInRange; decide, by decide⟩,
    C2_align_twice_anchor exMeshOrigin (by unfold slotsResolved; decide)
      (by unfold slotsValid; decide) (by decide) (by unfold coordsInRange; decide) (by decide)⟩

/-! ### C3: dump emits normal and texcoord lines for nonempty tuples -/

theorem getV_oob {st : List VertexObject} {i : ℕ} (h : st.length ≤ i) :
    getV st i = default := by
  rw [getV, List.getD_eq_getElem?_getD, List.getElem?_eq_none h]
  rfl

theorem assignIndices_fields_any (ids : List ℕ) (st : List VertexObject) (k j : ℕ) :
    (getV (assignIndices st k ids) j).position = (getV st j).position ∧
    (getV (assignIndices st k ids) j).normal = (getV st j).normal ∧
    (getV (assignIndices st k ids) j).texcoord = (getV st j).texcoord := by
  induction ids generalizing st k with
  | nil => exact ⟨rfl, rfl, rfl⟩
  | cons i rest ih =>
    rw [assignIndices]
    obtain ⟨h1, h2, h3⟩ := ih (st.set i { getV st i with index := k + 1 }) (k + 1)
    rw [h1, h2, h3, getV_set]
    by_cases hc : i = j ∧ i < st.length
    · obtain ⟨rfl, hlt⟩ := hc
      simp [hlt]
    · rw [if_neg hc]
      exact ⟨rfl, rfl, rfl⟩

theorem getUnique_some_shape {m m1 : MeshObject} {ids : List ℕ}
    (h : getUniqueVertices m = some (m1, ids)) :
    m1 = { m with store := assignIndices m.store 0 ids } := by
  rw [getUniqueVertices] at h
  cases hfd : firstDedup [] m.triangles.flatten with
  | none =>
    rw [hfd] at h
    exact absurd h (by simp)
  | some ids' =>
    rw [hfd] at h
    simp only [Option.some.injEq, Prod.mk.injEq] at h
    obtain ⟨h1, h2⟩ := h
    rw [← h1, h2]

/-- C3: on vertices whose normal and texcoord tuples are nonempty — in
particular on every vertex still carrying the constructor defaults
`(0,0,0)` and `(0,0)`, which are truthy Python tuples — `dump` emits, for
each unique vertex in dedup order, the position line followed
unconditionally by a normal line and a texcoord line, i.e. it coincides
with the spec's always-emit serializer `dumpUncond`. -/
theorem C3_dump_always_emits_vn_vt (m : MeshObject)
    (h : ∀ v ∈ m.store, v.normal ≠ [] ∧ v.texcoord ≠ []) :
    dump m = dumpUncond m := by
  cases hgu : getUniqueVertices m with
  | none => rw [dump, dumpUncond, hgu]
  | some p =>
    obtain ⟨m1, ids⟩ := p
    have hm1 := getUnique_some_shape hgu
    have hv : ∀ i : ℕ, vertexLines (getV m1.store i) =
        vLineChars (getV m1.store i).position ++
          (vnLineChars (getV m1.store i).normal ++ vtLineChars (getV m1.store i).texcoord) := by
      intro i
      have hnt : (getV m1.store i).normal ≠ [] ∧ (getV m1.store i).texcoord ≠ [] := by
        rw [hm1]
        show (getV (assignIndices m.store 0 ids) i).normal ≠ [] ∧
          (getV (assignIndices m.store 0 ids) i).texcoord ≠ []
        rw [(assignIndices_fields_any ids m.store 0 i).2.1,
          (assignIndices_fields_any ids m.store 0 i).2.2]
        by_cases hi : i < m.store.length
        · exact h _ (getV_mem hi)
        · rw [getV_oob (Nat.le_of_not_lt hi)]
          refine ⟨?_, ?_⟩ <;> simp [default]
      rw [vertexLines, if_neg hnt.1, if_neg hnt.2]
    rw [dump, dumpUncond, hgu]
    simp only
    cases hfl : mapOpt (faceLine m1.store) m1.triangles with
    | none => rfl
    | some faces =>
      have hmap : (ids.map fun i => vertexLines (getV m1.store i)) =
          ids.map fun i =>
            vLineChars (getV m1.store i).position ++
              (vnLineChars (getV m1.store i).normal ++ vtLineChars (getV m1.store i).texcoord) :=
        List.map_congr_left fun i _ => hv i
      rw [hmap]

/-- C3 witness: on the origin mesh, whose vertex still carries the default
normal (0,0,0) and texcoord (0,0), dump emits the vn and vt lines. -/
theorem C3_dump_always_emits_vn_vt_witness :
    (∀ v ∈ exMeshOrigin.store, v.normal ≠ [] ∧ v.texcoord ≠ []) ∧
      dump exMeshOrigin = dumpUncond exMeshOrigin :=
  ⟨by decide, C3_dump_always_emits_vn_vt exMeshOrigin (by decide)⟩

/-! ### C8: the X rotation at 90 degrees -/

theorem rotateWithMatrix_of_parts (m m1 : MeshObject) (l : List ℕ) (mat : Mat3)
    (st' : List VertexObject) (hgu : getUniqueVertices m = some (m1, l))
    (hap : rotateApply mat m1.store l = some st') :
    rotateWithMatrix mat m = some { m1 with store := st' } := by
  rw [rotateWithMatrix, hgu]
  simp only [hap]

/-- C8: with `trig 90 = (0, 1)` — the exact values of `cos (pi/180 * 90)`
and `sin (pi/180 * 90)` which the Python doubles only approximate —
`rotate` with angles (90, 0, 0) maps a referenced vertex at position
(0, 1, 0) to exactly (0, 0, 1): the right-hand X rotation matrix has rows
(1,0,0), (0,c,-s), (0,s,c), and the zero Y and Z angles are skipped. -/
theorem C8_rotate_x_90_maps_y_to_z (trig : ℚ → ℚ × ℚ) (htrig : trig 90 = (0, 1))
    (m : MeshObject) (hres : slotsResolved m) (hval : slotsValid m)
    (hdim : ∀ v ∈ m.store, 3 ≤ v.position.length ∧ 3 ≤ v.normal.length)
    (i : ℕ) (hi : ∃ t ∈ m.triangles, some i ∈ t)
    (hpos : (getV m.store i).position = [0, 1, 0]) :
    ∃ m', rotate trig (90, 0, 0) m = some m' ∧ (getV m'.store i).position = [0, 0, 1] := by
  have e1 := getUnique_of_resolved hres
  have hl : i ∈ fdRec (slotIds m) := mem_fdRec.2 (mem_slotIds.2 hi)
  have hilt : i < m.store.length := slotIds_lt_store hval (mem_slotIds.2 hi)
  have hnd := fdRec_nodup (slotIds m)
  have hdims : ∀ j ∈ fdRec (slotIds m),
      3 ≤ (getV (assignIndices m.store 0 (fdRec (slotIds m))) j).position.length ∧
      3 ≤ (getV (assignIndices m.store 0 (fdRec (slotIds m))) j).normal.length := by
    intro j hj
    rw [(assignIndices_fields_any _ _ _ j).1, (assignIndices_fields_any _ _ _ j).2.1]
    exact hdim _ (getV_mem (slotIds_lt_store hval (mem_fdRec.1 hj)))
  obtain ⟨st', hap, hlen', hget'⟩ := rotateApply_eq (fdRec (slotIds m)) hnd
    { r0 := (1, 0, 0), r1 := (0, 0, -1), r2 := (0, 1, 0) }
    (assignIndices m.store 0 (fdRec (slotIds m))) hdims
  have hrwm := rotateWithMatrix_of_parts m _ _
    { r0 := (1, 0, 0), r1 := (0, 0, -1), r2 := (0, 1, 0) } _ e1 hap
  have hrx : rotateX trig 90 m = some (MeshObject.mk st' m.triangles) := by
    rw [rotateX, if_neg (by norm_num : (90 : ℚ) ≠ 0), htrig]
    exact hrwm
  refine ⟨MeshObject.mk st' m.triangles, ?_, ?_⟩
  · show (match rotateX trig 90 m with
      | none => none
      | some m1 =>
        match rotateY trig 0 m1 with
        | none => none
        | some m2 => rotateZ trig 0 m2) = some (MeshObject.mk st' m.triangles)
    rw [hrx]
    simp [rotateY, rotateZ]
  · show (getV st' i).position = [0, 0, 1]
    rw [hget' i, if_pos ⟨hl, by rw [assignIndices_length]; exact hilt⟩]
    show [_, _, _] = _
    rw [(assignIndices_fields_any _ _ _ i).1, hpos]
    norm_num [vdot]

/-- C8 witness: a one-triangle mesh with its vertex at (0, 1, 0), rotated
with the exact trig table `fun _ => (0, 1)`. -/
theorem C8_rotate_x_90_maps_y_to_z_witness :
    ((fun _ : ℚ => ((0 : ℚ), (1 : ℚ))) 90 = (0, 1) ∧
      slotsResolved exMeshYUnit ∧ slotsValid exMeshYUnit ∧
      (∀ v ∈ exMeshYUnit.store, 3 ≤ v.position.length ∧ 3 ≤ v.normal.length) ∧
      (∃ t ∈ exMeshYUnit.triangles, some 0 ∈ t) ∧
      (getV exMeshYUnit.store 0).position = [0, 1, 0]) ∧
    (∃ m', rotate (fun _ : ℚ => ((0 : ℚ), (1 : ℚ))) (90, 0, 0) exMeshYUnit = some m' ∧
      (getV m'.store 0).position = [0, 0, 1]) :=
  ⟨⟨rfl, by unfold slotsResolved; decide, by unfold slotsValid; decide, by decide,
      by decide, by decide⟩,
    C8_rotate_x_90_maps_y_to_z _ rfl exMeshYUnit (by unfold slotsResolved; decide)
      (by unfold slotsValid; decide) (by decide) 0 (by decide) (by decide)⟩

/-! ### Decimal rendering / parsing round-trip -/

theorem digitVal_digitCh {d : ℕ} (h : d < 10) : digitVal (digitCh d) = d := by
  interval_cases d <;> rfl

theorem isDigitCh_digitCh {d : ℕ} (h : d < 10) : isDigitCh (digitCh d) = true := by
  interval_cases d <;> rfl

theorem natCharsF_digits : ∀ (fuel n : ℕ), n < fuel →
    ∀ c ∈ natCharsF fuel n, isDigitCh c = true := by
  intro fuel
  induction fuel with
  | zero => intro n h; exact absurd h (Nat.not_lt_zero n)
  | succ fuel ih =>
    intro n h c hc
    rw [natCharsF] at hc
    by_cases hn : n < 10
    · rw [if_pos hn] at hc
      rcases List.mem_singleton.1 hc with rfl
      exact isDigitCh_digitCh hn
    · rw [if_neg hn] at hc
      rcases List.mem_append.1 hc with h1 | h2
      · have hdiv : n / 10 < n := Nat.div_lt_self (by omega) (by omega)
        exact ih (n / 10) (by omega) c h1
      · rcases List.mem_singleton.1 h2 with rfl
        exact isDigitCh_digitCh (Nat.mod_lt _ (by omega))

theorem natChars_digits {n : ℕ} : ∀ c ∈ natChars n, isDigitCh c = true :=
  natCharsF_digits (n + 1) n (by omega)

theorem natChars_ne_nil (n : ℕ) : natChars n ≠ [] := by
  rw [natChars_eq]
  by_cases hn : n < 10
  · simp [hn]
  · simp [hn]

theorem parseNat_append_digit (xs : List Char) (c : Char) :
    parseNat (xs ++ [c]) = parseNat xs * 10 + digitVal c := by
  rw [parseNat, parseNat, List.foldl_append]
  rfl

theorem parseNat_natCharsF : ∀ (fuel n : ℕ), n < fuel →
    parseNat (natCharsF fuel n) = n := by
  intro fuel
  induction fuel with
  | zero => intro n h; exact absurd h (Nat.not_lt_zero n)
  | succ fuel ih =>
    intro n h
    rw [natCharsF]
    by_cases hn : n < 10
    · rw [if_pos hn]
      simp [parseNat, digitVal_digitCh hn]
    · rw [if_neg hn, parseNat_append_digit]
      have hdiv : n / 10 < n := Nat.div_lt_self (by omega) (by omega)
      rw [ih (n / 10) (by omega), digitVal_digitCh (Nat.mod_lt _ (by omega))]
      omega

theorem parseNat_natChars (n : ℕ) : parseNat (natChars n) = n :=
  parseNat_natCharsF (n + 1) n (by omega)

theorem pyNat_natChars (n : ℕ) : pyNat (natChars n) = some n := by
  rw [pyNat, if_neg (natChars_ne_nil n),
    if_pos (List.all_eq_true.2 fun c hc => natChars_digits c hc), parseNat_natChars]

theorem not_dash_of_digit {c : Char} (h : isDigitCh c = true) : c ≠ '-' := by
  intro hc
  subst hc
  exact absurd h (by decide)

theorem not_plus_of_digit {c : Char} (h : isDigitCh c = true) : c ≠ '+' := by
  intro hc
  subst hc
  exact absurd h (by decide)

theorem pyInt_natChars (n : ℕ) : pyInt (natChars n) = some (n : ℤ) := by
  cases hnc : natChars n with
  | nil => exact absurd hnc (natChars_ne_nil n)
  | cons c rest =>
    have hdig : isDigitCh c = true :=
      natChars_digits c (by rw [hnc]; exact List.mem_cons_self c rest)
    simp only [pyInt]
    rw [if_neg (not_dash_of_digit hdig), if_neg (not_plus_of_digit hdig), ← hnc,
      pyNat_natChars]
    rfl

theorem takeWhile_append_all {p : Char → Bool} : ∀ (xs ys : List Char),
    (∀ c ∈ xs, p c = true) → (xs ++ ys).takeWhile p = xs ++ ys.takeWhile p := by
  intro xs
  induction xs with
  | nil => intro ys _; rfl
  | cons c xs ih =>
    intro ys h
    rw [List.cons_append, List.takeWhile_cons_of_pos (h c (List.mem_cons_self c xs)),
      ih ys fun c' hc' => h c' (List.mem_cons_of_mem _ hc')]
    rfl

theorem dropWhile_append_all {p : Char → Bool} : ∀ (xs ys : List Char),
    (∀ c ∈ xs, p c = true) → (xs ++ ys).dropWhile p = ys.dropWhile p := by
  intro xs
  induction xs with
  | nil => intro ys _; rfl
  | cons c xs ih =>
    intro ys h
    rw [List.cons_append, List.dropWhile_cons_of_pos (h c (List.mem_cons_self c xs)),
      ih ys fun c' hc' => h c' (List.mem_cons_of_mem _ hc')]

theorem takeWhile_all {p : Char → Bool} (xs : List Char) (h : ∀ c ∈ xs, p c = true) :
    xs.takeWhile p = xs := by
  have := takeWhile_append_all xs [] h
  simpa using this

theorem dropWhile_all {p : Char → Bool} (xs : List Char) (h : ∀ c ∈ xs, p c = true) :
    xs.dropWhile p = [] := by
  have := dropWhile_append_all xs [] h
  simpa using this

theorem pyFloatMag_dec (ip fp : List Char) (hip : ∀ c ∈ ip, isDigitCh c = true)
    (hfp : ∀ c ∈ fp, isDigitCh c = true) (hipne : ip ≠ []) :
    pyFloatMag (ip ++ '.' :: fp) =
      some ((parseNat ip : ℚ) + (parseNat fp : ℚ) / (10 : ℚ) ^ fp.length) := by
  have htw : (ip ++ '.' :: fp).takeWhile isDigitCh = ip := by
    rw [takeWhile_append_all ip _ hip, List.takeWhile_cons_of_neg (by decide)]
    simp
  have hdw : (ip ++ '.' :: fp).dropWhile isDigitCh = '.' :: fp := by
    rw [dropWhile_append_all ip _ hip, List.dropWhile_cons_of_neg (by decide)]
  simp only [pyFloatMag, htw, hdw]
  rw [takeWhile_all fp hfp, dropWhile_all fp hfp, if_neg (fun hc => hipne hc.1)]
  rfl

theorem natChars_len_le : ∀ (k n : ℕ), n < 10 ^ k → 1 ≤ k →
    (natChars n).length ≤ k := by
  intro k
  induction k with
  | zero => intro n _ hk; exact absurd hk (by omega)
  | succ k ih =>
    intro n h _
    rw [natChars_eq]
    by_cases hn : n < 10
    · simp [hn]
    · rw [if_neg hn, List.length_append]
      have hdivlt : n / 10 < 10 ^ k := by
        rw [Nat.div_lt_iff_lt_mul (by omega)]
        calc n < 10 ^ (k + 1) := h
        _ = 10 ^ k * 10 := by ring
      have hk1 : 1 ≤ k := by
        by_contra hk
        push_neg at hk
        interval_cases k
        · simp at h
          omega
      have := ih (n / 10) hdivlt hk1
      simp only [List.length_singleton]
      omega

theorem pad7_length {n : ℕ} (h : n < 10000000) : (pad7 n).length = 7 := by
  rw [pad7, List.length_append, List.length_replicate]
  have h7 : (10 : ℕ) ^ 7 = 10000000 := by norm_num
  have := natChars_len_le 7 n (by omega) (by omega)
  omega

theorem pad7_digits {n : ℕ} : ∀ c ∈ pad7 n, isDigitCh c = true := by
  intro c hc
  rw [pad7] at hc
  rcases List.mem_append.1 hc with h1 | h2
  · rcases List.eq_of_mem_replicate h1 with rfl
    rfl
  · exact natChars_digits c h2

theorem foldl_digit_replicate_zero : ∀ (k : ℕ),
    List.foldl (fun a c => a * 10 + digitVal c) 0 (List.replicate k '0') = 0 := by
  intro k
  induction k with
  | zero => rfl
  | succ k ih =>
    rw [List.replicate_succ, List.foldl_cons]
    exact ih

theorem parseNat_pad7 (n : ℕ) : parseNat (pad7 n) = n := by
  rw [pad7, parseNat, List.foldl_append, foldl_digit_replicate_zero, ← parseNat,
    parseNat_natChars]

theorem round7num_nonneg {q : ℚ} (h : 0 ≤ q) : 0 ≤ round7num q := by
  rw [round7num]
  rw [Int.le_floor]
  push_cast
  nlinarith

theorem format7abs_eq (q : ℚ) :
    format7abs q = natChars ((round7num q).toNat / 10000000) ++
      '.' :: pad7 ((round7num q).toNat % 10000000) := rfl

theorem pyFloatMag_format7abs (q : ℚ) :
    pyFloatMag (format7abs q) = some (((round7num q).toNat : ℚ) / 10000000) := by
  rw [format7abs_eq,
    pyFloatMag_dec _ _ (fun c hc => natChars_digits c hc) (fun c hc => pad7_digits c hc)
      (natChars_ne_nil _)]
  congr 1
  rw [parseNat_natChars, parseNat_pad7, pad7_length (Nat.mod_lt _ (by norm_num))]
  have hn : (round7num q).toNat / 10000000 * 10000000 + (round7num q).toNat % 10000000 =
      (round7num q).toNat := by
    have := Nat.div_add_mod (round7num q).toNat 10000000
    omega
  have hcast : (((round7num q).toNat / 10000000 : ℕ) : ℚ) * 10000000 +
      (((round7num q).toNat % 10000000 : ℕ) : ℚ) = (((round7num q).toNat : ℕ) : ℚ) := by
    exact_mod_cast congrArg (fun x : ℕ => (x : ℚ)) hn
  have h7 : ((10 : ℚ) ^ 7) = 10000000 := by norm_num
  rw [h7]
  field_simp
  linarith

theorem format7abs_head_digit (q : ℚ) :
    ∃ c0 cs, format7abs q = c0 :: cs ∧ isDigitCh c0 = true := by
  rcases hnc : natChars ((round7num q).toNat / 10000000) with _ | ⟨c0, cs⟩
  · exact absurd hnc (natChars_ne_nil _)
  · refine ⟨c0, cs ++ '.' :: pad7 ((round7num q).toNat % 10000000), ?_, ?_⟩
    · rw [format7abs_eq, hnc]
      rfl
    · exact natChars_digits c0 (by rw [hnc]; exact List.mem_cons_self c0 cs)

theorem pyFloat_format7 (q : ℚ) : pyFloat (format7 q) = some (round7 q) := by
  rw [format7, round7]
  by_cases hq : q < 0
  · rw [if_pos hq, if_pos hq]
    simp only [pyFloat]
    rw [if_pos trivial, pyFloatMag_format7abs]
    rfl
  · rw [if_neg hq, if_neg hq]
    obtain ⟨c0, cs, hfa, hdig⟩ := format7abs_head_digit q
    rw [hfa]
    simp only [pyFloat]
    rw [if_neg (not_dash_of_digit hdig), if_neg (not_plus_of_digit hdig), ← hfa,
      pyFloatMag_format7abs]

/-! ### Running the parser over structured input -/

theorem pstateExt {s s' : PState} (h1 : s.value = s'.value) (h2 : s.record = s'.record)
    (h3 : s.valueType = s'.valueType) (h4 : s.prev = s'.prev) (h5 : s.vertex = s'.vertex)
    (h6 : s.store = s'.store) (h7 : s.triangles = s'.triangles) : s = s' := by
  cases s
  cases s'
  simp_all

theorem steps_append (a : List Char) : ∀ (s : PState) (b : List Char),
    steps s (a ++ b) =
      match steps s a with
      | none => none
      | some s2 => steps s2 b := by
  induction a with
  | nil => intro s b; rfl
  | cons c a ih =>
    intro s b
    simp only [List.cons_append, steps]
    cases hc : step s c with
    | none => rfl
    | some s2 => exact ih s2 b

theorem loadAux_of_steps (seg : List Char) : ∀ (s : PState) (rest : List Char), '#' ∉ seg →
    loadAux s false (seg ++ rest) =
      match steps s seg with
      | none => none
      | some s2 => loadAux s2 false rest := by
  induction seg with
  | nil => intro s rest _; rfl
  | cons c seg ih =>
    intro s rest hno
    have hc : c ≠ '#' := fun h => hno (h ▸ List.mem_cons_self c seg)
    simp only [List.cons_append, loadAux, steps, if_neg hc]
    cases hstep : step s c with
    | none => rfl
    | some s2 => exact ih s2 rest fun h => hno (List.mem_cons_of_mem _ h)

theorem loadAux_comment_aux (body : List Char) : ∀ (s : PState) (rest : List Char),
    '\n' ∉ body →
    loadAux s true (body ++ '\n' :: rest) = loadAux { s with prev := some '\n' } false rest := by
  induction body with
  | nil =>
    intro s rest _
    simp [loadAux]
  | cons c body ih =>
    intro s rest hno
    have hc : c ≠ '\n' := fun h => hno (h ▸ List.mem_cons_self c body)
    simp only [List.cons_append, loadAux, if_neg hc]
    exact ih s rest fun h => hno (List.mem_cons_of_mem _ h)

theorem loadAux_comment (s : PState) (body rest : List Char) (hno : '\n' ∉ body) :
    loadAux s false ('#' :: (body ++ '\n' :: rest)) =
      loadAux { s with prev := some '\n' } false rest := by
  have h1 : loadAux s false ('#' :: (body ++ '\n' :: rest)) =
      loadAux s true (body ++ '\n' :: rest) := by
    simp [loadAux]
  rw [h1, loadAux_comment_aux body s rest hno]

theorem step_plain {c : Char} (h : isPlain c) (s : PState) :
    step s c = some { s with value := s.value ++ [c], prev := some c } := by
  obtain ⟨h1, h2, h3, h4, h5, h6, _⟩ := h
  rw [step, if_neg h1, if_neg h2, if_neg h3, if_neg h4, if_neg fun hc => hc.elim h5 h6]

theorem step_space (s : PState) : step s ' ' = stepWS s ' ' := by
  rw [step, if_neg (by decide), if_neg (by decide), if_neg (by decide), if_neg (by decide),
    if_pos (Or.inl rfl)]

theorem step_nl (s : PState) : step s '\n' = stepWS s '\n' := by
  rw [step, if_neg (by decide), if_neg (by decide), if_neg (by decide), if_neg (by decide),
    if_pos (Or.inr rfl)]

theorem flushValue_creation (s : PState) (h : s.prev = some 'v') :
    flushValue s = some { s with
                          store := s.store ++ [newVertex (s.store.length + 1)]
                          vertex := some s.store.length
                          valueType := RecordType.position
                          value := [] } := by
  rw [flushValue, if_pos h]

theorem flushValue_skip (s : PState) (h : s.prev = some ' ') :
    flushValue s = some { s with value := [] } := by
  rw [flushValue, if_neg (by rw [h]; simp), if_pos h]

theorem flushValue_empty (s : PState) (d : Char) (h : s.prev = some d) (hd1 : d ≠ 'v')
    (hd2 : d ≠ ' ') (hv : s.value = []) : flushValue s = some { s with value := [] } := by
  rw [flushValue, h, if_neg (by simp [hd1]), if_neg (by simp [hd2]), if_pos hv]

theorem flushValue_parse (s : PState) (d : Char) (q : ℚ) (h : s.prev = some d) (hd1 : d ≠ 'v')
    (hd2 : d ≠ ' ') (hne : s.value ≠ []) (hq : parseValue s.valueType s.value = some q) :
    flushValue s = some { s with record := s.record ++ [q], value := [] } := by
  rw [flushValue, h, if_neg (by simp [hd1]), if_neg (by simp [hd2]), if_neg hne, hq]

theorem steps_token (tok : List Char) : ∀ (s : PState), tok ≠ [] → (∀ c ∈ tok, isPlain c) →
    ∃ d, d ∈ tok ∧ steps s tok = some { s with value := s.value ++ tok, prev := some d } := by
  induction tok with
  | nil => intro s h _; exact absurd rfl h
  | cons c rest ih =>
    intro s _ hp
    have hc := hp c (List.mem_cons_self c rest)
    rcases eq_or_ne rest [] with hrest | hrest
    · subst hrest
      exact ⟨c, List.mem_cons_self c [], by simp [steps, step_plain hc]⟩
    · obtain ⟨d, hd, hsteps⟩ := ih { s with value := s.value ++ [c], prev := some c } hrest
        fun c' hc' => hp c' (List.mem_cons_of_mem _ hc')
      refine ⟨d, List.mem_cons_of_mem _ hd, ?_⟩
      rw [steps, step_plain hc]
      dsimp only
      rw [hsteps]
      simp [List.append_assoc]

theorem steps_unit (s : PState) (tok : List Char) (q : ℚ) (hv : s.value = [])
    (htok : tok ≠ []) (hplain : ∀ c ∈ tok, isPlain c)
    (hparse : parseValue s.valueType tok = some q) :
    steps s (tok ++ [' ']) =
      some { s with record := s.record ++ [q], value := [], prev := some ' ' } := by
  obtain ⟨d, hd, hsteps⟩ := steps_token tok s htok hplain
  obtain ⟨hd1, hd2, hd3, hd4, hd5, hd6, hd7⟩ := hplain d hd
  rw [steps_append, hsteps]
  dsimp only
  have hflush : flushValue { s with value := s.value ++ tok, prev := some d } =
      some { s with record := s.record ++ [q], value := [], prev := some d } := by
    rw [flushValue_parse { s with value := s.value ++ tok, prev := some d } d q rfl hd1 hd5
      (by simp [hv, htok]) (by simpa [hv] using hparse)]
  rw [steps, step_space, stepWS, hflush]
  rfl

theorem steps_units (tvs : List (List Char × ℚ)) : ∀ (s : PState), s.value = [] →
    (∀ p ∈ tvs, p.1 ≠ [] ∧ ∀ c ∈ p.1, isPlain c) →
    (∀ p ∈ tvs, parseValue s.valueType p.1 = some p.2) →
    ∃ pr, steps s (unitsChars tvs) =
      some { s with record := s.record ++ tvs.map Prod.snd, value := [], prev := pr } := by
  induction tvs with
  | nil =>
    intro s hv _ _
    refine ⟨s.prev, ?_⟩
    show some s = _
    exact congrArg some (pstateExt (by simp [hv]) (by simp) rfl rfl rfl rfl rfl)
  | cons p tvs ih =>
    intro s hv hshape hparse
    have hhead := hshape p (List.mem_cons_self p tvs)
    have hu := steps_unit s p.1 p.2 hv hhead.1 hhead.2
      (hparse p (List.mem_cons_self p tvs))
    have hchars : unitsChars (p :: tvs) = (p.1 ++ [' ']) ++ unitsChars tvs := by
      simp [unitsChars]
    obtain ⟨pr, hpr⟩ := ih { s with record := s.record ++ [p.2], value := [], prev := some ' ' }
      rfl (fun p' hp' => hshape p' (List.mem_cons_of_mem _ hp'))
      (fun p' hp' => hparse p' (List.mem_cons_of_mem _ hp'))
    refine ⟨pr, ?_⟩
    rw [hchars, steps_append, hu]
    dsimp only
    rw [hpr]
    exact congrArg some (pstateExt rfl (by simp) rfl rfl rfl rfl rfl)

theorem isPlain_of_digit {c : Char} (h : isDigitCh c = true) : isPlain c :=
  ⟨fun hc => absurd (hc ▸ h) (by decide), fun hc => absurd (hc ▸ h) (by decide),
   fun hc => absurd (hc ▸ h) (by decide), fun hc => absurd (hc ▸ h) (by decide),
   fun hc => absurd (hc ▸ h) (by decide), fun hc => absurd (hc ▸ h) (by decide),
   fun hc => absurd (hc ▸ h) (by decide)⟩

theorem isPlain_dash : isPlain '-' :=
  ⟨by decide, by decide, by decide, by decide, by decide, by decide, by decide⟩

theorem isPlain_dot : isPlain '.' :=
  ⟨by decide, by decide, by decide, by decide, by decide, by decide, by decide⟩

theorem isPlain_slash : isPlain '/' :=
  ⟨by decide, by decide, by decide, by decide, by decide, by decide, by decide⟩

theorem format7abs_plain (q : ℚ) : ∀ c ∈ format7abs q, isPlain c := by
  intro c hc
  rw [format7abs] at hc
  rcases List.mem_append.1 hc with hc | hc
  · exact isPlain_of_digit (natChars_digits c hc)
  · rcases List.mem_cons.1 hc with rfl | hc
    · exact isPlain_dot
    · exact isPlain_of_digit (pad7_digits c hc)

theorem format7_plain (q : ℚ) : ∀ c ∈ format7 q, isPlain c := by
  intro c hc
  rw [format7] at hc
  by_cases hq : q < 0
  · rw [if_pos hq] at hc
    rcases List.mem_cons.1 hc with rfl | hc
    · exact isPlain_dash
    · exact format7abs_plain _ c hc
  · rw [if_neg hq] at hc
    exact format7abs_plain _ c hc

theorem format7abs_ne_nil (q : ℚ) : format7abs q ≠ [] := by
  rw [format7abs]
  intro h
  exact natChars_ne_nil _ (List.append_eq_nil.mp h).1

theorem format7_ne_nil (q : ℚ) : format7 q ≠ [] := by
  rw [format7]
  by_cases hq : q < 0
  · rw [if_pos hq]
    exact List.cons_ne_nil _ _
  · rw [if_neg hq]
    exact format7abs_ne_nil q

theorem sep_decomp {α : Type} (tokOf : α → List Char) (valOf : α → ℚ) (qs : List α) :
    ∀ q : α,
    ((qs ++ [q]).map fun r => ' ' :: tokOf r).flatten ++ ['\n'] =
      ' ' :: (unitsChars (qs.map fun r => (tokOf r, valOf r)) ++ (tokOf q ++ ['\n'])) := by
  induction qs with
  | nil =>
    intro q
    simp [unitsChars]
  | cons r qs ih =>
    intro q
    simp only [List.cons_append, List.map_cons, List.flatten_cons, unitsChars,
      List.append_assoc]
    rw [ih q]
    simp [unitsChars, List.append_assoc]

theorem flushLine_position (s : PState) (i : ℕ) (hvt : s.valueType = RecordType.position)
    (hvx : s.vertex = some i) :
    flushLine s = some { s with
                         store := s.store.set i { getV s.store i with position := s.record }
                         record := [] } := by
  simp only [flushLine, hvt, hvx]

theorem flushLine_normal (s : PState) (i : ℕ) (hvt : s.valueType = RecordType.normal)
    (hvx : s.vertex = some i) :
    flushLine s = some { s with
                         store := s.store.set i { getV s.store i with normal := s.record }
                         record := [] } := by
  simp only [flushLine, hvt, hvx]

theorem flushLine_texcoord (s : PState) (i : ℕ) (hvt : s.valueType = RecordType.texcoord)
    (hvx : s.vertex = some i) (hlen : s.record.length = 2) :
    flushLine s = some { s with
                         store := s.store.set i { getV s.store i with texcoord := s.record }
                         record := [] } := by
  simp only [flushLine, hvt, hvx, hlen, if_pos]

theorem flushLine_texcoord_skip (s : PState) (hvt : s.valueType = RecordType.texcoord)
    (hlen : s.record.length ≠ 2) :
    flushLine s = some { s with record := [] } := by
  simp [flushLine, hvt, hlen]

theorem flushLine_triangle (s : PState) (hvt : s.valueType = RecordType.triangle) :
    flushLine s = some { s with
                         triangles := s.triangles ++
                           (if s.record = [] then []
                            else [s.record.map (resolveRef s.store.length)])
                         record := [] } := by
  simp only [flushLine, hvt]

theorem steps_fields {α : Type} (tokOf : α → List Char) (valOf : α → ℚ) (s : PState)
    (qs : List α) (qlast : α) (hv : s.value = [])
    (hne : ∀ r : α, tokOf r ≠ []) (hplain : ∀ r : α, ∀ c ∈ tokOf r, isPlain c)
    (hparse : ∀ r : α, parseValue s.valueType (tokOf r) = some (valOf r)) :
    ∃ d, isPlain d ∧
      steps s (unitsChars (qs.map fun r => (tokOf r, valOf r)) ++ tokOf qlast) =
        some { s with record := s.record ++ qs.map valOf, value := tokOf qlast,
                      prev := some d } := by
  obtain ⟨pr, hunits⟩ := steps_units (qs.map fun r => (tokOf r, valOf r)) s hv
    (by
      intro p hp
      rcases List.mem_map.1 hp with ⟨r, _, rfl⟩
      exact ⟨hne r, hplain r⟩)
    (by
      intro p hp
      rcases List.mem_map.1 hp with ⟨r, _, rfl⟩
      exact hparse r)
  obtain ⟨d, hd, htok⟩ := steps_token (tokOf qlast)
    { s with record := s.record ++ (qs.map fun r => (tokOf r, valOf r)).map Prod.snd,
             value := [], prev := pr }
    (hne qlast) (hplain qlast)
  refine ⟨d, hplain qlast d hd, ?_⟩
  rw [steps_append, hunits]
  dsimp only
  rw [htok]
  refine congrArg some (pstateExt (by simp) ?_ rfl rfl rfl rfl rfl)
  simp [List.map_map]

/-! ### Whole record lines -/

theorem step_v (s : PState) : step s 'v' = some { s with prev := some 'v' } := by
  rw [step, if_pos rfl]

theorem steps_vline (s : PState) (ps : List ℚ) (hv : s.value = []) (hr : s.record = []) :
    steps s (vLineChars ps) =
      some { s with
             store := s.store ++
               [{ newVertex (s.store.length + 1) with position := ps.map round7 }]
             vertex := some s.store.length
             valueType := RecordType.position
             value := []
             record := []
             prev := some '\n' } := by
  rcases List.eq_nil_or_concat ps with rfl | ⟨qs, qlast, rfl⟩
  · have hch : vLineChars ([] : List ℚ) = ['v', '\n'] := rfl
    rw [hch, steps, step_v]
    dsimp only
    rw [steps, step_nl, stepWS, flushValue_creation _ rfl]
    dsimp only
    rw [flushLine_position _ s.store.length rfl rfl]
    refine congrArg some (pstateExt rfl rfl rfl rfl rfl ?_ rfl)
    rw [getV_append_last, set_append_last, hr]
    simp
  · rw [List.concat_eq_append]
    have h2 : steps s ['v', ' '] = some { s with
        store := s.store ++ [newVertex (s.store.length + 1)]
        vertex := some s.store.length
        valueType := RecordType.position
        value := []
        prev := some ' ' } := by
      rw [steps, step_v]
      dsimp only
      rw [steps, step_space, stepWS, flushValue_creation _ rfl]
      rfl
    have hdec : vLineChars (qs ++ [qlast]) = ['v', ' '] ++
        ((unitsChars (qs.map fun r => (format7 r, round7 r)) ++ format7 qlast) ++ ['\n']) := by
      rw [vLineChars, encodeTuple, sep_decomp format7 round7 qs qlast, List.append_assoc]
      rfl
    rw [hdec, steps_append, h2]
    dsimp only
    obtain ⟨d, hdp, hfields⟩ := steps_fields format7 round7
      { s with
        store := s.store ++ [newVertex (s.store.length + 1)]
        vertex := some s.store.length
        valueType := RecordType.position
        value := []
        prev := some ' ' } qs qlast rfl format7_ne_nil format7_plain
      (fun r => by rw [parseValue, if_neg (fun h => nomatch h)]; exact pyFloat_format7 r)
    rw [steps_append, hfields]
    dsimp only
    obtain ⟨hd1, hd2, hd3, hd4, hd5, hd6, hd7⟩ := hdp
    rw [steps, step_nl, stepWS,
      flushValue_parse _ d (round7 qlast) rfl hd1 hd5 (format7_ne_nil qlast)
        (by rw [parseValue, if_neg (fun h => nomatch h)]; exact pyFloat_format7 qlast)]
    dsimp only
    rw [flushLine_position _ s.store.length rfl rfl]
    refine congrArg some (pstateExt rfl rfl rfl rfl rfl ?_ rfl)
    rw [getV_append_last, set_append_last, hr]
    simp

theorem steps_vnline (s : PState) (ns : List ℚ) (i : ℕ) (hv : s.value = [])
    (hr : s.record = []) (hvx : s.vertex = some i) :
    steps s (vnLineChars ns) =
      some { s with
             store := s.store.set i { getV s.store i with normal := ns.map round7 }
             valueType := RecordType.normal
             value := []
             record := []
             prev := some '\n' } := by
  have hstepn : step { s with prev := some 'v' } 'n' =
      some { s with valueType := RecordType.normal, prev := some 'n' } := by
    rw [step, if_neg (by decide), if_pos rfl]
    rfl
  rcases List.eq_nil_or_concat ns with rfl | ⟨qs, qlast, rfl⟩
  · have hch : vnLineChars ([] : List ℚ) = ['v', 'n', '\n'] := rfl
    rw [hch, steps, step_v]
    dsimp only
    rw [steps, hstepn]
    dsimp only
    rw [steps, step_nl, stepWS, flushValue_empty _ 'n' rfl (by decide) (by decide) (by exact hv)]
    dsimp only
    rw [flushLine_normal _ i rfl (by exact hvx)]
    refine congrArg some (pstateExt rfl rfl rfl rfl rfl ?_ rfl)
    rw [hr]
    simp
  · rw [List.concat_eq_append]
    have h2 : steps s ['v', 'n', ' '] = some { s with
        valueType := RecordType.normal
        value := []
        prev := some ' ' } := by
      rw [steps, step_v]
      dsimp only
      rw [steps, hstepn]
      dsimp only
      rw [steps, step_space, stepWS, flushValue_empty _ 'n' rfl (by decide) (by decide) (by exact hv)]
      rfl
    have hdec : vnLineChars (qs ++ [qlast]) = ['v', 'n', ' '] ++
        ((unitsChars (qs.map fun r => (format7 r, round7 r)) ++ format7 qlast) ++ ['\n']) := by
      rw [vnLineChars, encodeTuple, sep_decomp format7 round7 qs qlast, List.append_assoc]
      rfl
    rw [hdec, steps_append, h2]
    dsimp only
    obtain ⟨d, hdp, hfields⟩ := steps_fields format7 round7
      { s with
        valueType := RecordType.normal
        value := []
        prev := some ' ' } qs qlast rfl format7_ne_nil format7_plain
      (fun r => by rw [parseValue, if_neg (fun h => nomatch h)]; exact pyFloat_format7 r)
    rw [steps_append, hfields]
    dsimp only
    obtain ⟨hd1, hd2, hd3, hd4, hd5, hd6, hd7⟩ := hdp
    rw [steps, step_nl, stepWS,
      flushValue_parse _ d (round7 qlast) rfl hd1 hd5 (format7_ne_nil qlast)
        (by rw [parseValue, if_neg (fun h => nomatch h)]; exact pyFloat_format7 qlast)]
    dsimp only
    rw [flushLine_normal _ i rfl (by exact hvx)]
    refine congrArg some (pstateExt rfl rfl rfl rfl rfl ?_ rfl)
    rw [hr]
    simp

theorem steps_vtline (s : PState) (ts : List ℚ) (i : ℕ) (hv : s.value = [])
    (hr : s.record = []) (hvx : s.vertex = some i) :
    steps s (vtLineChars ts) =
      some { s with
             store := if ts.length = 2 then
                 s.store.set i { getV s.store i with texcoord := ts.map round7 }
               else s.store
             valueType := RecordType.texcoord
             value := []
             record := []
             prev := some '\n' } := by
  have hstept : step { s with prev := some 'v' } 't' =
      some { s with valueType := RecordType.texcoord, prev := some 't' } := by
    rw [step, if_neg (by decide), if_neg (by decide), if_pos rfl]
    rfl
  rcases List.eq_nil_or_concat ts with rfl | ⟨qs, qlast, rfl⟩
  · have hch : vtLineChars ([] : List ℚ) = ['v', 't', '\n'] := rfl
    rw [hch, steps, step_v]
    dsimp only
    rw [steps, hstept]
    dsimp only
    rw [steps, step_nl, stepWS, flushValue_empty _ 't' rfl (by decide) (by decide) (by exact hv)]
    dsimp only
    rw [flushLine_texcoord_skip _ rfl (by simp [hr])]
    refine congrArg some (pstateExt rfl rfl rfl rfl rfl ?_ rfl)
    simp
  · rw [List.concat_eq_append]
    have h2 : steps s ['v', 't', ' '] = some { s with
        valueType := RecordType.texcoord
        value := []
        prev := some ' ' } := by
      rw [steps, step_v]
      dsimp only
      rw [steps, hstept]
      dsimp only
      rw [steps, step_space, stepWS, flushValue_empty _ 't' rfl (by decide) (by decide) (by exact hv)]
      rfl
    have hdec : vtLineChars (qs ++ [qlast]) = ['v', 't', ' '] ++
        ((unitsChars (qs.map fun r => (format7 r, round7 r)) ++ format7 qlast) ++ ['\n']) := by
      rw [vtLineChars, encodeTuple, sep_decomp format7 round7 qs qlast, List.append_assoc]
      rfl
    rw [hdec, steps_append, h2]
    dsimp only
    obtain ⟨d, hdp, hfields⟩ := steps_fields format7 round7
      { s with
        valueType := RecordType.texcoord
        value := []
        prev := some ' ' } qs qlast rfl format7_ne_nil format7_plain
      (fun r => by rw [parseValue, if_neg (fun h => nomatch h)]; exact pyFloat_format7 r)
    rw [steps_append, hfields]
    dsimp only
    obtain ⟨hd1, hd2, hd3, hd4, hd5, hd6, hd7⟩ := hdp
    rw [steps, step_nl, stepWS,
      flushValue_parse _ d (round7 qlast) rfl hd1 hd5 (format7_ne_nil qlast)
        (by rw [parseValue, if_neg (fun h => nomatch h)]; exact pyFloat_format7 qlast)]
    dsimp only
    by_cases hlen : (qs ++ [qlast]).length = 2
    · rw [flushLine_texcoord _ i rfl (by exact hvx) (by simp [hr]; simp at hlen; omega)]
      refine congrArg some (pstateExt rfl rfl rfl rfl rfl ?_ rfl)
      rw [hr, if_pos hlen]
      simp
    · rw [flushLine_texcoord_skip _ rfl (by simp [hr]; simp at hlen; omega)]
      refine congrArg some (pstateExt rfl rfl rfl rfl rfl ?_ rfl)
      rw [if_neg hlen]

theorem faceTokBody_plain (n : ℕ) : ∀ c ∈ faceTokBody n, isPlain c := by
  intro c hc
  rw [faceTokBody] at hc
  rcases List.mem_append.1 hc with hc | hc
  · exact isPlain_of_digit (natChars_digits c hc)
  · rcases List.mem_cons.1 hc with rfl | hc
    · exact isPlain_slash
    · rcases List.mem_append.1 hc with hc | hc
      · exact isPlain_of_digit (natChars_digits c hc)
      · rcases List.mem_cons.1 hc with rfl | hc
        · exact isPlain_slash
        · exact isPlain_of_digit (natChars_digits c hc)

theorem faceTokBody_ne_nil (n : ℕ) : faceTokBody n ≠ [] := by
  rw [faceTokBody]
  intro h
  exact natChars_ne_nil n (List.append_eq_nil.mp h).1

theorem parseValue_faceTokBody (n : ℕ) :
    parseValue RecordType.triangle (faceTokBody n) = some ((n : ℕ) : ℚ) := by
  rw [parseValue, if_pos rfl, faceTokBody,
    @takeWhile_append_all (fun c => decide (c ≠ '/')) (natChars n)
      ('/' :: (natChars n ++ '/' :: natChars n))
      (fun c hc => decide_eq_true fun h => absurd (h ▸ natChars_digits c hc) (by decide)),
    List.takeWhile_cons_of_neg (by decide), List.append_nil, pyInt_natChars]
  simp

theorem steps_faceline (s : PState) (idxs : List ℕ) (hv : s.value = []) (hr : s.record = [])
    (hprev : s.prev = some '\n') (hne : idxs ≠ []) :
    steps s (faceLineChars idxs) =
      some { s with
             valueType := RecordType.triangle
             triangles := s.triangles ++
               [idxs.map fun n => resolveRef s.store.length ((n : ℕ) : ℚ)]
             value := []
             record := []
             prev := some '\n' } := by
  have hstepf : step s 'f' =
      some { s with valueType := RecordType.triangle, prev := some 'f' } := by
    rw [step, if_neg (by decide), if_neg (by decide), if_neg (by decide), if_pos rfl, hprev]
    rfl
  rcases List.eq_nil_or_concat idxs with rfl | ⟨qs, qlast, rfl⟩
  · exact absurd rfl hne
  · rw [List.concat_eq_append]
    have h2 : steps s ['f', ' '] = some { s with
        valueType := RecordType.triangle
        value := []
        prev := some ' ' } := by
      rw [steps, hstepf]
      dsimp only
      rw [steps, step_space, stepWS,
        flushValue_empty _ 'f' rfl (by decide) (by decide) (by exact hv)]
      rfl
    have hform : faceLineChars (qs ++ [qlast]) =
        'f' :: (((qs ++ [qlast]).map fun r => ' ' :: faceTokBody r).flatten ++ ['\n']) := rfl
    have hdec : faceLineChars (qs ++ [qlast]) = ['f', ' '] ++
        ((unitsChars (qs.map fun r => (faceTokBody r, ((r : ℕ) : ℚ))) ++ faceTokBody qlast) ++
          ['\n']) := by
      rw [hform, sep_decomp faceTokBody (fun r => ((r : ℕ) : ℚ)) qs qlast, List.append_assoc]
      rfl
    rw [hdec, steps_append, h2]
    dsimp only
    obtain ⟨d, hdp, hfields⟩ := steps_fields faceTokBody (fun r => ((r : ℕ) : ℚ))
      { s with
        valueType := RecordType.triangle
        value := []
        prev := some ' ' } qs qlast rfl faceTokBody_ne_nil faceTokBody_plain
      (fun r => parseValue_faceTokBody r)
    rw [steps_append, hfields]
    dsimp only
    obtain ⟨hd1, hd2, hd3, hd4, hd5, hd6, hd7⟩ := hdp
    rw [steps, step_nl, stepWS,
      flushValue_parse _ d ((qlast : ℕ) : ℚ) rfl hd1 hd5 (by exact faceTokBody_ne_nil qlast)
        (by exact parseValue_faceTokBody qlast)]
    dsimp only
    rw [flushLine_triangle _ rfl]
    refine congrArg some (pstateExt rfl rfl rfl rfl rfl rfl ?_)
    simp [hr, List.map_map]

theorem steps_faceline_empty (s : PState) (hv : s.value = []) (hr : s.record = [])
    (hprev : s.prev = some '\n') :
    steps s (faceLineChars []) =
      some { s with valueType := RecordType.triangle, value := [], record := [],
                    prev := some '\n' } := by
  have hstepf : step s 'f' =
      some { s with valueType := RecordType.triangle, prev := some 'f' } := by
    rw [step, if_neg (by decide), if_neg (by decide), if_neg (by decide), if_pos rfl, hprev]
    rfl
  have hch : faceLineChars [] = ['f', '\n'] := rfl
  rw [hch, steps, hstepf]
  dsimp only
  rw [steps, step_nl, stepWS,
    flushValue_empty _ 'f' rfl (by decide) (by decide) (by exact hv)]
  dsimp only
  rw [flushLine_triangle _ rfl]
  refine congrArg some (pstateExt rfl rfl rfl rfl rfl rfl ?_)
  simp [hr]

/-! ### From whole inputs to meshes -/

theorem loadMesh_of_steps (input : List Char) (hno : '#' ∉ input) :
    loadMesh input =
      match steps initState input with
      | none => none
      | some s => some { store := s.store, triangles := s.triangles } := by
  rw [loadMesh]
  have h := loadAux_of_steps input initState [] hno
  rw [List.append_nil] at h
  rw [h]
  cases steps initState input <;> rfl

theorem encodeTuple_noHash (ps : List ℚ) : '#' ∉ encodeTuple ps := by
  intro h
  rw [encodeTuple] at h
  rcases List.mem_flatten.1 h with ⟨l, hl, hx⟩
  rcases List.mem_map.1 hl with ⟨r, _, rfl⟩
  rcases List.mem_cons.1 hx with h | h
  · exact absurd h (by decide)
  · exact (format7_plain r _ h).2.2.2.2.2.2 rfl

theorem vLineChars_noHash (ps : List ℚ) : '#' ∉ vLineChars ps := by
  intro h
  rw [vLineChars] at h
  rcases List.mem_cons.1 h with h | h
  · exact absurd h (by decide)
  · rcases List.mem_append.1 h with h | h
    · exact encodeTuple_noHash ps h
    · rcases List.mem_cons.1 h with h | h
      · exact absurd h (by decide)
      · exact absurd h (List.not_mem_nil _)

theorem vnLineChars_noHash (ps : List ℚ) : '#' ∉ vnLineChars ps := by
  intro h
  rw [vnLineChars] at h
  rcases List.mem_cons.1 h with h | h
  · exact absurd h (by decide)
  · rcases List.mem_cons.1 h with h | h
    · exact absurd h (by decide)
    · rcases List.mem_append.1 h with h | h
      · exact encodeTuple_noHash ps h
      · rcases List.mem_cons.1 h with h | h
        · exact absurd h (by decide)
        · exact absurd h (List.not_mem_nil _)

theorem vtLineChars_noHash (ps : List ℚ) : '#' ∉ vtLineChars ps := by
  intro h
  rw [vtLineChars] at h
  rcases List.mem_cons.1 h with h | h
  · exact absurd h (by decide)
  · rcases List.mem_cons.1 h with h | h
    · exact absurd h (by decide)
    · rcases List.mem_append.1 h with h | h
      · exact encodeTuple_noHash ps h
      · rcases List.mem_cons.1 h with h | h
        · exact absurd h (by decide)
        · exact absurd h (List.not_mem_nil _)

theorem faceLineChars_noHash (idxs : List ℕ) : '#' ∉ faceLineChars idxs := by
  intro h
  rw [faceLineChars] at h
  rcases List.mem_cons.1 h with h | h
  · exact absurd h (by decide)
  · rcases List.mem_append.1 h with h | h
    · rcases List.mem_flatten.1 h with ⟨l, hl, hx⟩
      rcases List.mem_map.1 hl with ⟨r, _, rfl⟩
      rcases List.mem_cons.1 hx with h | h
      · exact absurd h (by decide)
      · exact (faceTokBody_plain r _ h).2.2.2.2.2.2 rfl
    · rcases List.mem_cons.1 h with h | h
      · exact absurd h (by decide)
      · exact absurd h (List.not_mem_nil _)

theorem resolveRef_one (n : ℕ) :
    resolveRef 1 ((n : ℕ) : ℚ) = if n = 1 then some 0 else none := by
  rw [resolveRef]
  have hden : ((n : ℕ) : ℚ).den = 1 := Rat.den_natCast n
  have hnum : ((n : ℕ) : ℚ).num = (n : ℤ) := Rat.num_natCast n
  by_cases hn : n = 1
  · subst hn
    rw [if_pos ⟨hden, by simp [hnum], by simp [hnum]⟩, if_pos rfl, hnum]
    rfl
  · rw [if_neg fun hc => hn (by
      have h1 := hc.2.1
      have h2 := hc.2.2
      rw [hnum] at h1 h2
      omega), if_neg hn]

theorem round7_zero : round7 0 = 0 := by
  decide!

/-- C1 (corrected): the parser does not drop a face merely because every
slot is unresolvable.  Appended to a one-vertex source, a face line with
index tokens `ns ≠ []` always yields exactly one triangle, each slot being
`some 0` when its token is the (only) valid reference `1`, and absent
(`none`) otherwise — in particular a face whose every slot is unresolvable
is retained as a tuple of absent slots, not dropped.  A face line is
dropped exactly when it carries no index tokens at all. -/
theorem C1_face_retention (ns : List ℕ) :
    (ns ≠ [] →
      loadMesh (vLineChars [0, 0, 0] ++ faceLineChars ns) =
        some { store := [{ position := [0, 0, 0], normal := [0, 0, 0], texcoord := [0, 0],
                           index := 1 }],
               triangles := [ns.map fun n => if n = 1 then some 0 else none] }) ∧
    loadMesh (vLineChars [0, 0, 0] ++ faceLineChars []) =
      some { store := [{ position := [0, 0, 0], normal := [0, 0, 0], texcoord := [0, 0],
                         index := 1 }],
             triangles := [] } := by
  have hnoHash : ∀ ms : List ℕ, '#' ∉ vLineChars [0, 0, 0] ++ faceLineChars ms := by
    intro ms h
    rcases List.mem_append.1 h with h | h
    · exact vLineChars_noHash _ h
    · exact faceLineChars_noHash _ h
  have hvl := steps_vline initState [0, 0, 0] rfl rfl
  constructor
  · intro hne
    rw [loadMesh_of_steps _ (hnoHash ns), steps_append, hvl]
    dsimp only
    rw [steps_faceline _ ns rfl rfl rfl hne]
    refine congrArg some (meshExt ?_ ?_)
    · simp [initState, newVertex, round7_zero]
    · simp [initState, resolveRef_one]
  · rw [loadMesh_of_steps _ (hnoHash []), steps_append, hvl]
    dsimp only
    rw [steps_faceline_empty _ rfl rfl rfl]
    refine congrArg some (meshExt ?_ ?_)
    · simp [initState, newVertex, round7_zero]
    · simp [initState]

/-- Witness for C1: with tokens `9 9 9` (all unresolvable in a one-vertex
mesh) the face is retained as a triangle of three absent slots. -/
theorem C1_face_retention_witness :
    ([9, 9, 9] : List ℕ) ≠ [] ∧
      loadMesh (vLineChars [0, 0, 0] ++ faceLineChars [9, 9, 9]) =
        some { store := [{ position := [0, 0, 0], normal := [0, 0, 0], texcoord := [0, 0],
                           index := 1 }],
               triangles := [[none, none, none]] } := by
  refine ⟨by decide, ?_⟩
  rw [(C1_face_retention [9, 9, 9]).1 (by decide)]
  rfl

/-! ### Vertex blocks and block runs -/

theorem steps_vertexBlock (s : PState) (v : VertexObject) (hv : s.value = [])
    (hr : s.record = []) :
    ∃ vt, steps s (vertexLines v) =
      some { s with
             store := s.store ++ [reparseVertex (s.store.length + 1) v]
             vertex := some s.store.length
             valueType := vt
             value := []
             record := []
             prev := some '\n' } := by
  rw [vertexLines, steps_append, steps_vline s v.position hv hr]
  dsimp only
  by_cases hn : v.normal = []
  · rw [if_pos hn, List.nil_append]
    by_cases ht : v.texcoord = []
    · rw [if_pos ht]
      refine ⟨RecordType.position, ?_⟩
      show some _ = some _
      refine congrArg some (pstateExt rfl rfl rfl rfl rfl ?_ rfl)
      simp [reparseVertex, newVertex, hn, ht]
    · rw [if_neg ht, steps_vtline _ v.texcoord s.store.length rfl rfl rfl]
      refine ⟨RecordType.texcoord, ?_⟩
      refine congrArg some (pstateExt rfl rfl rfl rfl rfl ?_ rfl)
      by_cases hlen : v.texcoord.length = 2
      · rw [if_pos hlen, getV_append_last, set_append_last]
        simp [reparseVertex, newVertex, hn, hlen]
      · rw [if_neg hlen]
        simp [reparseVertex, newVertex, hn, hlen]
  · rw [if_neg hn, steps_append, steps_vnline _ v.normal s.store.length rfl rfl rfl]
    dsimp only
    by_cases ht : v.texcoord = []
    · rw [if_pos ht]
      refine ⟨RecordType.normal, ?_⟩
      show some _ = some _
      refine congrArg some (pstateExt rfl rfl rfl rfl rfl ?_ rfl)
      rw [getV_append_last, set_append_last]
      simp [reparseVertex, newVertex, hn, ht]
    · rw [if_neg ht, steps_vtline _ v.texcoord s.store.length rfl rfl rfl]
      refine ⟨RecordType.texcoord, ?_⟩
      refine congrArg some (pstateExt rfl rfl rfl rfl rfl ?_ rfl)
      by_cases hlen : v.texcoord.length = 2
      · rw [if_pos hlen, getV_append_last, set_append_last, getV_append_last,
          set_append_last]
        simp [reparseVertex, newVertex, hn, hlen]
      · rw [if_neg hlen, getV_append_last, set_append_last]
        simp [reparseVertex, newVertex, hn, hlen]

theorem steps_blocks : ∀ (vs : List VertexObject) (s : PState), vs ≠ [] → s.value = [] →
    s.record = [] →
    ∃ vt j, steps s ((vs.map vertexLines).flatten) =
      some { s with
             store := s.store ++ reparseAll vs s.store.length
             vertex := some j
             valueType := vt
             value := []
             record := []
             prev := some '\n' } := by
  intro vs
  induction vs with
  | nil => intro s h; exact absurd rfl h
  | cons v rest ih =>
    intro s _ hv hr
    rcases eq_or_ne rest [] with rfl | hrest
    · obtain ⟨vt, hblk⟩ := steps_vertexBlock s v hv hr
      refine ⟨vt, s.store.length, ?_⟩
      have hch : (([v].map vertexLines).flatten) = vertexLines v ++ [] := rfl
      rw [hch, steps_append, hblk]
      dsimp only
      show some _ = some _
      exact congrArg some (pstateExt rfl rfl rfl rfl rfl rfl rfl)
    · obtain ⟨vt1, hblk⟩ := steps_vertexBlock s v hv hr
      obtain ⟨vt, j, hrun⟩ := ih
        { s with
          store := s.store ++ [reparseVertex (s.store.length + 1) v]
          vertex := some s.store.length
          valueType := vt1
          value := []
          record := []
          prev := some '\n' } hrest rfl rfl
      refine ⟨vt, j, ?_⟩
      have hch : (((v :: rest).map vertexLines).flatten) =
          vertexLines v ++ (rest.map vertexLines).flatten := rfl
      rw [hch, steps_append, hblk]
      dsimp only
      rw [hrun]
      refine congrArg some (pstateExt rfl rfl rfl rfl rfl ?_ rfl)
      rw [List.append_assoc]
      congr 1
      have hlen : (s.store ++ [reparseVertex (s.store.length + 1) v]).length =
          s.store.length + 1 := by simp
      rw [hlen]
      rfl

/-! ### Face runs and comment lines -/

theorem mapOpt_cons_inv {α β : Type} {f : α → Option β} {a : α} {rest : List α}
    {bs : List β} (h : mapOpt f (a :: rest) = some bs) :
    ∃ b tl, f a = some b ∧ mapOpt f rest = some tl ∧ bs = b :: tl := by
  rw [mapOpt] at h
  cases hfa : f a with
  | none =>
    rw [hfa] at h
    exact Option.noConfusion h
  | some b =>
    cases hrest : mapOpt f rest with
    | none =>
      rw [hfa, hrest] at h
      exact Option.noConfusion h
    | some tl =>
      rw [hfa, hrest] at h
      exact ⟨b, tl, rfl, rfl, (Option.some.inj h).symm⟩

theorem faceLine_resolved (st : List VertexObject) (t : Triangle)
    (h : ∀ sl ∈ t, sl ≠ none) :
    faceLine st t =
      some (faceLineChars ((t.filterMap id).map fun i => (getV st i).index)) := by
  rw [faceLine, faceLineChars]
  have hmo : mapOpt (fun sl => sl.map fun i => faceTok (getV st i).index) t =
      some ((((t.filterMap id).map fun i => (getV st i).index)).map faceTok) := by
    induction t with
    | nil => rfl
    | cons sl rest ih =>
      cases sl with
      | none => exact absurd rfl (h none (List.mem_cons_self _ _))
      | some i =>
        rw [mapOpt, ih fun sl' hsl' => h sl' (List.mem_cons_of_mem _ hsl')]
        rfl
  rw [hmo]

theorem resolved_tokens_ne_nil {t : Triangle} (hres : ∀ sl ∈ t, sl ≠ none) (hne : t ≠ []) :
    t.filterMap id ≠ [] := by
  cases t with
  | nil => exact absurd rfl hne
  | cons sl rest =>
    cases sl with
    | none => exact absurd rfl (hres none (List.mem_cons_self _ _))
    | some i => simp [List.filterMap_cons]

theorem steps_faces : ∀ (ts : List Triangle) (faces : List (List Char))
    (st : List VertexObject) (s2 : PState), (∀ t ∈ ts, ∀ sl ∈ t, sl ≠ none) →
    (∀ t ∈ ts, t ≠ []) → s2.value = [] → s2.record = [] → s2.prev = some '\n' →
    mapOpt (faceLine st) ts = some faces →
    ∃ vt, steps s2 faces.flatten =
      some { s2 with
             valueType := vt
             triangles := s2.triangles ++ ts.map (faceTriOf st s2.store.length)
             value := []
             record := []
             prev := some '\n' } := by
  intro ts
  induction ts with
  | nil =>
    intro faces st s2 _ _ hv hr hprev hmo
    rw [mapOpt] at hmo
    obtain rfl : faces = [] := (Option.some.inj hmo).symm
    refine ⟨s2.valueType, ?_⟩
    show some _ = some _
    exact congrArg some
      (pstateExt (by simp [hv]) (by simp [hr]) rfl (by simp [hprev]) rfl rfl (by simp))
  | cons t rest ih =>
    intro faces st s2 hres hne hv hr hprev hmo
    obtain ⟨b, tl, hft, hmtl, rfl⟩ := mapOpt_cons_inv hmo
    have hb : b = faceLineChars ((t.filterMap id).map fun i => (getV st i).index) := by
      have h2 := faceLine_resolved st t (hres t (List.mem_cons_self _ _))
      rw [hft] at h2
      exact Option.some.inj h2
    subst hb
    rw [List.flatten_cons, steps_append,
      steps_faceline s2 _ hv hr hprev
        (by
          intro hcon
          exact resolved_tokens_ne_nil (hres t (List.mem_cons_self _ _))
            (hne t (List.mem_cons_self _ _)) (List.map_eq_nil_iff.mp hcon))]
    dsimp only
    obtain ⟨vt, hrun⟩ := ih tl st
      { s2 with
        valueType := RecordType.triangle
        triangles := s2.triangles ++
          [((t.filterMap id).map fun i => (getV st i).index).map fun n =>
            resolveRef s2.store.length ((n : ℕ) : ℚ)]
        value := []
        record := []
        prev := some '\n' }
      (fun t' ht' => hres t' (List.mem_cons_of_mem _ ht'))
      (fun t' ht' => hne t' (List.mem_cons_of_mem _ ht'))
      rfl rfl rfl hmtl
    refine ⟨vt, ?_⟩
    rw [hrun]
    refine congrArg some (pstateExt rfl rfl rfl rfl rfl rfl ?_)
    rw [List.append_assoc]
    rfl

theorem loadAux_countComment (s : PState) (n : ℕ) (label rest : List Char)
    (hlab : '\n' ∉ label) :
    loadAux s false (countComment n label ++ rest) =
      loadAux { s with prev := some '\n' } false rest := by
  have hshape : countComment n label ++ rest =
      '#' :: ((' ' :: (natChars n ++ ' ' :: label)) ++ '\n' :: rest) := by
    simp [countComment, List.append_assoc]
  rw [hshape]
  refine loadAux_comment s _ rest ?_
  intro h
  rcases List.mem_cons.1 h with h | h
  · exact absurd h (by decide)
  · rcases List.mem_append.1 h with h | h
    · exact absurd (natChars_digits _ h) (by decide)
    · rcases List.mem_cons.1 h with h | h
      · exact absurd h (by decide)
      · exact hlab h

/-! ### Reparse store access and dedup relabeling -/

theorem reparseAll_length : ∀ (vs : List VertexObject) (k : ℕ),
    (reparseAll vs k).length = vs.length := by
  intro vs
  induction vs with
  | nil => intro k; rfl
  | cons v rest ih =>
    intro k
    rw [reparseAll, List.length_cons, ih, List.length_cons]

theorem getV_reparseAll : ∀ (vs : List VertexObject) (k j : ℕ), j < vs.length →
    getV (reparseAll vs k) j = reparseVertex (k + j + 1) (getV vs j) := by
  intro vs
  induction vs with
  | nil => intro k j h; exact absurd h (by simp)
  | cons v rest ih =>
    intro k j h
    cases j with
    | zero => rfl
    | succ j =>
      have hlt : j < rest.length := by simpa using h
      show getV (reparseAll rest (k + 1)) j = reparseVertex (k + (j + 1) + 1) (getV rest j)
      rw [ih (k + 1) j hlt]
      congr 1
      omega

theorem resolveRef_valid (N n : ℕ) (h1 : 1 ≤ n) (h2 : n ≤ N) :
    resolveRef N ((n : ℕ) : ℚ) = some (n - 1) := by
  rw [resolveRef]
  have hden : ((n : ℕ) : ℚ).den = 1 := Rat.den_natCast n
  have hnum : ((n : ℕ) : ℚ).num = (n : ℤ) := Rat.num_natCast n
  rw [if_pos ⟨hden, by rw [hnum]; exact_mod_cast h1, by rw [hnum]; exact_mod_cast h2⟩, hnum]
  congr 1

theorem fdRecF_map (g : ℕ → ℕ) : ∀ (fuel : ℕ) (w : List ℕ), w.length ≤ fuel →
    (∀ a ∈ w, ∀ b ∈ w, g a = g b → a = b) →
    fdRecF fuel (w.map g) = (fdRecF fuel w).map g := by
  intro fuel
  induction fuel with
  | zero =>
    intro w h _
    obtain rfl : w = [] := List.length_eq_zero.mp (Nat.le_zero.mp h)
    rfl
  | succ fuel ih =>
    intro w hlen hinj
    cases w with
    | nil => rfl
    | cons i w =>
      rw [List.map_cons, fdRecF, fdRecF, List.map_cons]
      congr 1
      rw [List.filter_map]
      have hfc : (w.filter ((fun a => decide (a ≠ g i)) ∘ g)) =
          w.filter fun a => decide (a ≠ i) := by
        apply List.filter_congr
        intro a ha
        simp only [Function.comp]
        by_cases hai : a = i
        · subst hai
          simp
        · have hgai : g a ≠ g i := fun hg =>
            hai (hinj a (List.mem_cons_of_mem _ ha) i (List.mem_cons_self _ _) hg)
          simp [hai, hgai]
      rw [hfc]
      exact ih _ (le_trans (List.length_filter_le _ _) (by simpa using hlen))
        fun a ha b hb hg => hinj a (List.mem_cons_of_mem _ (List.mem_of_mem_filter ha))
          b (List.mem_cons_of_mem _ (List.mem_of_mem_filter hb)) hg

theorem fdRec_map (g : ℕ → ℕ) (w : List ℕ)
    (hinj : ∀ a ∈ w, ∀ b ∈ w, g a = g b → a = b) :
    fdRec (w.map g) = (fdRec w).map g := by
  rw [fdRec, fdRec, List.length_map]
  exact fdRecF_map g w.length w (le_refl _) hinj

theorem filterMap_flatten_mapped (f : ℕ → ℕ) : ∀ ts : List Triangle,
    ((ts.map fun t => (t.filterMap id).map fun i => some (f i)).flatten).filterMap id =
      (ts.flatten.filterMap id).map f := by
  intro ts
  induction ts with
  | nil => rfl
  | cons t rest ih =>
    rw [List.map_cons, List.flatten_cons, List.filterMap_append, ih, List.flatten_cons,
      List.filterMap_append, List.map_append]
    congr 1
    rw [List.filterMap_map]
    exact congrFun (List.filterMap_eq_map f) _

theorem map_indexOf_eq_range (ids : List ℕ) (hnd : ids.Nodup) :
    (ids.map fun i => ids.indexOf i) = List.range ids.length := by
  apply List.ext_getElem
  · simp
  · intro k h1 h2
    rw [List.getElem_map, List.getElem_range]
    exact List.indexOf_getElem hnd k (by simpa using h1)

theorem vertexLines_noHash (v : VertexObject) : '#' ∉ vertexLines v := by
  intro h
  rw [vertexLines] at h
  rcases List.mem_append.1 h with h | h
  · exact vLineChars_noHash _ h
  · rcases List.mem_append.1 h with h | h
    · by_cases hn : v.normal = []
      · rw [if_pos hn] at h
        exact absurd h (List.not_mem_nil _)
      · rw [if_neg hn] at h
        exact vnLineChars_noHash _ h
    · by_cases ht : v.texcoord = []
      · rw [if_pos ht] at h
        exact absurd h (List.not_mem_nil _)
      · rw [if_neg ht] at h
        exact vtLineChars_noHash _ h

theorem mapOpt_mem {α β : Type} {f : α → Option β} : ∀ {l : List α} {bs : List β},
    mapOpt f l = some bs → ∀ b ∈ bs, ∃ a ∈ l, f a = some b := by
  intro l
  induction l with
  | nil =>
    intro bs h b hb
    rw [mapOpt] at h
    obtain rfl : bs = [] := (Option.some.inj h).symm
    exact absurd hb (List.not_mem_nil _)
  | cons a rest ih =>
    intro bs h b hb
    obtain ⟨b0, tl, hfa, hmtl, rfl⟩ := mapOpt_cons_inv h
    rcases List.mem_cons.1 hb with rfl | hb
    · exact ⟨a, List.mem_cons_self _ _, hfa⟩
    · obtain ⟨a2, ha2, hfa2⟩ := ih hmtl b hb
      exact ⟨a2, List.mem_cons_of_mem _ ha2, hfa2⟩

theorem loadMesh_dump_output (st1 : List VertexObject) (ids : List ℕ) (ts : List Triangle)
    (faces : List (List Char)) (hids : ids ≠ [])
    (hres : ∀ t ∈ ts, ∀ sl ∈ t, sl ≠ none) (hne : ∀ t ∈ ts, t ≠ [])
    (hmo : mapOpt (faceLine st1) ts = some faces) :
    loadMesh ((ids.map fun i => vertexLines (getV st1 i)).flatten ++
        (countComment ids.length (("verticies").toList) ++
          (faces.flatten ++ countComment ts.length (("elements").toList)))) =
      some { store := reparseAll (ids.map fun i => getV st1 i) 0,
             triangles := ts.map (faceTriOf st1 ids.length) } := by
  have hvs : (ids.map fun i => getV st1 i) ≠ [] := by
    simpa [List.map_eq_nil_iff] using hids
  obtain ⟨vt, j, hblocks⟩ := steps_blocks (ids.map fun i => getV st1 i) initState hvs rfl rfl
  have hchain : ((ids.map fun i => getV st1 i).map vertexLines) =
      ids.map fun i => vertexLines (getV st1 i) := by
    rw [List.map_map]
    rfl
  rw [hchain] at hblocks
  have hnoB : '#' ∉ (ids.map fun i => vertexLines (getV st1 i)).flatten := by
    intro h
    rcases List.mem_flatten.1 h with ⟨l, hl, hx⟩
    rcases List.mem_map.1 hl with ⟨i, _, rfl⟩
    exact vertexLines_noHash _ hx
  rw [loadMesh, loadAux_of_steps _ initState _ hnoB, hblocks]
  dsimp only
  rw [loadAux_countComment _ ids.length _ _ (by decide)]
  dsimp only
  have hnoC : '#' ∉ faces.flatten := by
    intro h
    rcases List.mem_flatten.1 h with ⟨chars, hc, hx⟩
    obtain ⟨t, ht, hft⟩ := mapOpt_mem hmo chars hc
    have h2 := faceLine_resolved st1 t (hres t ht)
    rw [hft] at h2
    obtain rfl := Option.some.inj h2
    exact faceLineChars_noHash _ hx
  rw [loadAux_of_steps _ _ _ hnoC]
  obtain ⟨vt2, hfrun⟩ := steps_faces ts faces st1
    { initState with
      store := initState.store ++
        reparseAll (ids.map fun i => getV st1 i) initState.store.length
      vertex := some j
      valueType := vt
      value := []
      record := []
      prev := some '\n' } hres hne rfl rfl rfl hmo
  rw [hfrun]
  dsimp only
  rw [show countComment ts.length (("elements").toList) =
      countComment ts.length (("elements").toList) ++ [] from (List.append_nil _).symm]
  rw [loadAux_countComment _ ts.length _ _ (by decide)]
  show some _ = some _
  refine congrArg some (meshExt ?_ ?_)
  · rfl
  · show initState.triangles ++ _ = _
    have hlen : (initState.store ++
        reparseAll (ids.map fun i => getV st1 i) initState.store.length).length =
        ids.length := by
      simp [initState, reparseAll_length]
    rw [hlen]
    rfl

theorem dedupPositions_of_reparsed (m p : MeshObject) (ids : List ℕ)
    (st1 : List VertexObject) (hval : slotsValid m) (hids : ids = fdRec (slotIds m))
    (hst1 : st1 = assignIndices m.store 0 ids)
    (hpstore : p.store = reparseAll (ids.map fun i => getV st1 i) 0)
    (hptris : p.triangles = m.triangles.map (faceTriOf st1 ids.length)) :
    dedupPositions p =
      some ((ids.map fun i => (getV st1 i).position).map (List.map round7)) := by
  have hnd : ids.Nodup := by
    rw [hids]
    exact fdRec_nodup _
  have hmemids : ∀ i, i ∈ ids ↔ i ∈ slotIds m := by
    intro i
    rw [hids]
    exact mem_fdRec
  have hft : ∀ t ∈ m.triangles, faceTriOf st1 ids.length t =
      (t.filterMap id).map fun i => some (ids.indexOf i) := by
    intro t ht
    rw [faceTriOf, List.map_map]
    apply List.map_congr_left
    intro i hi
    have hsome : some i ∈ t := by
      rcases List.mem_filterMap.1 hi with ⟨o, ho, hoi⟩
      obtain rfl : o = some i := hoi
      exact ho
    have himem : i ∈ slotIds m := mem_slotIds.2 ⟨t, ht, hsome⟩
    have hiids : i ∈ ids := (hmemids i).2 himem
    have hilt : i < m.store.length := slotIds_lt_store hval himem
    have hidx : (getV st1 i).index = ids.indexOf i + 1 := by
      rw [hst1, getV_assignIndices ids hnd m.store 0 i, if_pos ⟨hiids, hilt⟩]
      simp
    simp only [Function.comp]
    rw [hidx, resolveRef_valid ids.length (ids.indexOf i + 1) (by omega)
      (by have := List.indexOf_lt_length.mpr hiids; omega)]
    simp
  have hptri2 : p.triangles =
      m.triangles.map fun t => (t.filterMap id).map fun i => some (ids.indexOf i) := by
    rw [hptris]
    exact List.map_congr_left hft
  have hresp : slotsResolved p := by
    intro t' ht' sl hsl
    rw [hptri2] at ht'
    rcases List.mem_map.1 ht' with ⟨t, _, rfl⟩
    rcases List.mem_map.1 hsl with ⟨i, _, rfl⟩
    simp
  have hslotp : slotIds p = (slotIds m).map fun i => ids.indexOf i := by
    rw [slotIds, hptri2, filterMap_flatten_mapped]
    rfl
  have hinj : ∀ a ∈ slotIds m, ∀ b ∈ slotIds m, ids.indexOf a = ids.indexOf b → a = b := by
    intro a ha b hb h
    exact (List.indexOf_inj ((hmemids a).2 ha) ((hmemids b).2 hb)).mp h
  have hidsP : fdRec (slotIds p) = List.range ids.length := by
    rw [hslotp, fdRec_map _ _ hinj, ← hids, map_indexOf_eq_range ids hnd]
  rw [dedupPositions, getUnique_of_resolved hresp]
  dsimp only
  rw [hidsP]
  refine congrArg some ?_
  apply List.ext_getElem
  · simp [hpstore, reparseAll_length]
  · intro k h1 h2
    have hk : k < ids.length := by simpa using h1
    simp only [List.getElem_map, List.getElem_range]
    rw [(assignIndices_fields (List.range ids.length) (List.nodup_range ids.length) p.store 0 k).1]
    rw [hpstore, getV_reparseAll _ 0 k (by simpa using hk)]
    rw [getV_eq_getElem (by simpa using hk), List.getElem_map]
    simp [reparseVertex]

/-- C6: on a mesh whose triangle slots all hold resolved stored vertices
(with nonempty faces, as the parser guarantees), `dump` succeeds, re-parsing
its output succeeds, the reparsed mesh has the same number of triangles,
and its deduplicated position list is exactly the original deduplicated
position list with every coordinate rounded to 7 decimals — the same
distinct position vectors up to the `'{:.7f}'` rounding, in the same dedup
order. -/
theorem C6_roundtrip (m : MeshObject) (hres : slotsResolved m) (hval : slotsValid m)
    (hfaces : facesNonempty m) :
    ∃ out p ps, dump m = some out ∧ loadMesh out = some p ∧
      p.triangles.length = m.triangles.length ∧
      dedupPositions m = some ps ∧
      dedupPositions p = some (ps.map (List.map round7)) := by
  have hGU := getUnique_of_resolved hres
  rcases eq_or_ne m.triangles [] with htri | htri
  · have hslot0 : slotIds m = [] := by
      rw [slotIds, htri]
      rfl
    have hids0 : fdRec (slotIds m) = [] := by
      rw [hslot0]
      rfl
    rw [hids0] at hGU
    have hdump : dump m = some (countComment 0 (("verticies").toList) ++
        countComment 0 (("elements").toList)) := by
      rw [dump, hGU]
      dsimp only
      rw [htri]
      rfl
    have hparse : loadMesh (countComment 0 (("verticies").toList) ++
        countComment 0 (("elements").toList)) =
        some { store := [], triangles := [] } := by
      rw [loadMesh, loadAux_countComment initState 0 _ _ (by decide)]
      rw [show countComment 0 (("elements").toList) =
          countComment 0 (("elements").toList) ++ [] from (List.append_nil _).symm]
      rw [loadAux_countComment _ 0 _ _ (by decide)]
      rfl
    refine ⟨_, _, [], hdump, hparse, ?_, ?_, rfl⟩
    · rw [htri]
    · rw [dedupPositions, hGU]
      rfl
  · obtain ⟨faces, hmo⟩ := @mapOpt_faceLine_isSome
      (assignIndices m.store 0 (fdRec (slotIds m))) m.triangles hres
    have hslotne : slotIds m ≠ [] := by
      rcases List.exists_mem_of_ne_nil m.triangles htri with ⟨t, ht⟩
      rcases List.exists_mem_of_ne_nil t (hfaces t ht) with ⟨sl, hsl⟩
      cases sl with
      | none => exact absurd rfl (hres t ht none hsl)
      | some i => exact List.ne_nil_of_mem (mem_slotIds.2 ⟨t, ht, hsl⟩)
    have hidsne : fdRec (slotIds m) ≠ [] := fdRec_ne_nil hslotne
    have hdump : dump m =
        some (((fdRec (slotIds m)).map fun i =>
            vertexLines (getV (assignIndices m.store 0 (fdRec (slotIds m))) i)).flatten ++
          (countComment (fdRec (slotIds m)).length (("verticies").toList) ++
            (faces.flatten ++ countComment m.triangles.length (("elements").toList)))) := by
      rw [dump, hGU]
      dsimp only
      rw [hmo]
    have hload := loadMesh_dump_output (assignIndices m.store 0 (fdRec (slotIds m)))
      (fdRec (slotIds m)) m.triangles faces hidsne hres hfaces hmo
    have hdedup := dedupPositions_of_reparsed m
      { store := reparseAll ((fdRec (slotIds m)).map fun i =>
          getV (assignIndices m.store 0 (fdRec (slotIds m))) i) 0,
        triangles := m.triangles.map (faceTriOf (assignIndices m.store 0 (fdRec (slotIds m)))
          (fdRec (slotIds m)).length) }
      (fdRec (slotIds m)) (assignIndices m.store 0 (fdRec (slotIds m))) hval rfl rfl rfl rfl
    refine ⟨_, _, (fdRec (slotIds m)).map fun i =>
        (getV (assignIndices m.store 0 (fdRec (slotIds m))) i).position,
      hdump, hload, ?_, ?_, hdedup⟩
    · simp
    · rw [dedupPositions, hGU]

/-- Witness for C6: the round trip on the concrete two-vertex mesh
`cexMesh2`. -/
theorem C6_roundtrip_witness :
    slotsResolved cexMesh2 ∧ slotsValid cexMesh2 ∧ facesNonempty cexMesh2 ∧
      ∃ out p ps, dump cexMesh2 = some out ∧ loadMesh out = some p ∧
        p.triangles.length = cexMesh2.triangles.length ∧
        dedupPositions cexMesh2 = some ps ∧
        dedupPositions p = some (ps.map (List.map round7)) :=
  ⟨by unfold slotsResolved; decide, by unfold slotsValid; decide,
   by unfold facesNonempty; decide,
   C6_roundtrip cexMesh2 (by unfold slotsResolved; decide)
     (by unfold slotsValid; decide) (by unfold facesNonempty; decide)⟩

end ObjMixer
